import Mathlib

/-!
# SVEXP28: one book record, read from standard input and echoed back

A shallow embedding of `src/SVEXP28.c`.

* Standard input is the list of its unread bytes; `[]` is end-of-file.
* Standard output is the list of the strings printed, one entry per `printf` call.
* The three loops of the program (`while (getchar() != '\n');` and the `do … while (1)`
  around the status flag) take a fuel argument that bounds the number of iterations;
  `none` means the fuel ran out before the loop was left.
* `double` and the two library routines that touch it (`scanf("%lf")`, `printf("%.2lf")`)
  are a parameter `FloatLib` of the program; `Binary64` is the instance the program runs on:
  IEEE 754 binary64 with round-to-nearest-even, as glibc reads and prints it.
* `union BookStringData` is one 100-byte buffer: `title` and `author` name the same bytes.
-/

namespace SVEXP28

/-! ## The C library -/

/-- Unread bytes of standard input, front first; `[]` is end-of-file. -/
abbrev Stream := List Char

/-- The macro `MAX_STR_LEN` (line 5). -/
def MAX_STR_LEN : Nat := 100

/-- The terminating byte of a C string. -/
def NUL : Char := '\x00'

/-- Result of one `scanf` conversion: `stored v` is return value 1 with `v` written through the
pointer; `matchFail` is return value 0 and `inputFail` is return value `EOF`, nothing written. -/
inductive Scan (α : Type) where
  | stored (v : α)
  | matchFail
  | inputFail
  deriving DecidableEq

/-- The `int` returned by `scanf` with a single conversion. -/
def Scan.ret {α : Type} : Scan α → Int
  | .stored _ => 1
  | .matchFail => 0
  | .inputFail => -1

/-- What the program needs of floating point: the type `double`, `scanf("%lf", &x)` as a
function of the unread input, and the text `printf("%.2lf", x)` produces. -/
structure FloatLib where
  Double : Type
  scanf_lf : Stream → Scan Double × Stream
  printf_2lf : Double → String

/-- The call `getchar()`: the next byte, or `none` for `EOF`; at end-of-file the stream stays there. -/
def getchar : Stream → Option Char × Stream
  | [] => (none, [])
  | c :: cs => (some c, cs)

/-- The test `isspace` in the C locale: space, `\t`, `\n`, `\v`, `\f`, `\r`. -/
def isspace (c : Char) : Bool :=
  c = ' ' || c = '\t' || c = '\n' || c = '\x0b' || c = '\x0c' || c = '\r'

/-- The test `isdigit`: the bytes `'0'` to `'9'`. -/
def isdigit (c : Char) : Bool :=
  decide (48 ≤ c.toNat) && decide (c.toNat ≤ 57)

/-- The white space a `scanf` conversion skips before its input item. -/
def skipSpace : Stream → Stream
  | [] => []
  | c :: cs => if isspace c then skipSpace cs else c :: cs

/-- The longest run of decimal digits at the front of the stream, and what follows it. -/
def takeDigits : Stream → List Char × Stream
  | [] => ([], [])
  | c :: cs => if isdigit c then ((takeDigits cs).1.cons c, (takeDigits cs).2) else ([], c :: cs)

/-- Value of a run of decimal digits, most significant first. -/
def digitsValue (ds : List Char) : Nat :=
  ds.foldl (fun acc c => 10 * acc + (c.toNat - 48)) 0

/-- Saturation of `strtol` at `LONG_MIN` and `LONG_MAX` (64-bit `long`). -/
def clampLong (v : Int) : Int :=
  if v < -(2 : Int) ^ 63 then -(2 : Int) ^ 63 else if (2 : Int) ^ 63 - 1 < v then (2 : Int) ^ 63 - 1 else v

/-- Conversion to a 32-bit two's complement `int`. -/
def toInt32 (v : Int) : Int :=
  (v + (2 : Int) ^ 31) % (2 : Int) ^ 32 - (2 : Int) ^ 31

/-- The call `scanf("%d", &x)`: skip white space, read an optional sign and the longest run of digits;
the first byte after the input item stays unread. End-of-file before any byte of the item is an
input failure; an item without a digit is a matching failure. A value outside `int` is
undefined in C; this follows the common LP64 behaviour (`strtol` saturates, the `long` is
truncated to `int`). -/
def scanf_d (s : Stream) : Scan Int × Stream :=
  match skipSpace s with
  | [] => (.inputFail, [])
  | c :: cs =>
    let body := if c = '-' ∨ c = '+' then cs else c :: cs
    match takeDigits body with
    | ([], r) => (.matchFail, r)
    | (d :: ds, r) =>
      let v : Int := digitsValue (d :: ds)
      (.stored (toInt32 (clampLong (if c = '-' then -v else v))), r)

/-- The bytes `fgets` takes with room for `k` of them: up to and including the first newline,
or `k` bytes, or up to end-of-file. -/
def fgetsRead : Nat → Stream → List Char × Stream
  | 0, s => ([], s)
  | _ + 1, [] => ([], [])
  | k + 1, c :: cs =>
    if c = '\n' then ([c], cs) else ((fgetsRead k cs).1.cons c, (fgetsRead k cs).2)

/-- Write `data` at the start of the buffer, the bytes after it keep their value. -/
def poke (buf data : List Char) : List Char :=
  data ++ buf.drop data.length

/-- The call `fgets(buf, n, stdin)`: at most `n - 1` bytes, then a terminating NUL. At end-of-file with
no byte read it returns `NULL` and the buffer keeps its contents. -/
def fgets (buf : List Char) (n : Nat) (s : Stream) : List Char × Stream :=
  match s with
  | [] => (buf, [])
  | _ :: _ => (poke buf ((fgetsRead (n - 1) s).1 ++ [NUL]), (fgetsRead (n - 1) s).2)

/-- The call `strcspn(buf, reject)`: length of the initial segment of the C string in `buf` that has no
byte of `reject`. On a buffer with neither a NUL nor a byte of `reject` the C function reads past
the end (undefined); here the result is then the buffer's length. -/
def strcspn (buf reject : List Char) : Nat :=
  (buf.takeWhile (fun c => c != NUL && !(reject.contains c))).length

/-- The C string held in a buffer: the bytes before the first NUL (what `%s` prints). On a
buffer without a NUL the C code reads past the end (undefined); here the result is then the
whole buffer. -/
def cstr (buf : List Char) : List Char :=
  buf.takeWhile (fun c => c != NUL)

/-- Digits of a natural number, most significant first; the first argument bounds the number
of digits. -/
def showNatAux : Nat → Nat → List Char → List Char
  | 0, _, acc => acc
  | f + 1, n, acc =>
    if n / 10 = 0 then Char.ofNat (48 + n % 10) :: acc
    else showNatAux f (n / 10) (Char.ofNat (48 + n % 10) :: acc)

/-- Decimal digits of a natural number. -/
def showNat (n : Nat) : List Char :=
  showNatAux (n + 1) n []

/-- The text `printf("%d", n)` produces. -/
def showInt : Int → List Char
  | .ofNat n => showNat n
  | .negSucc n => '-' :: showNat (n + 1)

/-! ## Floating point

The type `double` is IEEE 754 binary64. `scanf("%lf")` and `printf("%.2lf")` are modelled as
the GNU C library does them: input item as its `vfscanf` collects it, conversion and printing
correctly rounded (to nearest, ties to even). -/

/-- A value of type `double`: a finite value of magnitude `m * 2 ^ x / 2 ^ 1074` (with
`m < 2 ^ 53`, and `2 ^ 52 ≤ m` unless `x = 0`), an infinity, or a NaN, each with its sign. -/
inductive Binary64Value where
  | finite (neg : Bool) (m x : Nat)
  | inf (neg : Bool)
  | nan (neg : Bool)
  deriving DecidableEq

/-- The quotient `a / d` rounded to the nearest integer, a tie going to the even one. -/
def halfEven (a d : Nat) : Nat :=
  if d < 2 * (a % d) ∨ (2 * (a % d) = d ∧ a / d % 2 = 1) then a / d + 1 else a / d

/-- Position of the highest set bit, by halving; the first argument bounds the halvings. -/
def log2Aux : Nat → Nat → Nat
  | 0, _ => 0
  | f + 1, n => if n < 2 then 0 else log2Aux f (n / 2) + 1

/-- Position of the highest set bit of `n` (0 for `n ≤ 1`). -/
def ilog2 (n : Nat) : Nat := log2Aux n n

/-- The binary64 value nearest to `p / q` (ties to even), with the given sign: `x` is the
exponent of the binade of `p / q`, no lower than that of the subnormals; a value beyond the
largest finite one becomes an infinity. -/
def roundBinary64 (neg : Bool) (p q : Nat) : Binary64Value :=
  if p = 0 then .finite neg 0 0
  else
    let x := ilog2 p + 1022 - ilog2 q - (if q * 2 ^ ilog2 p ≤ p * 2 ^ ilog2 q then 0 else 1)
    let m := halfEven (p * 2 ^ (1074 - x)) (q * 2 ^ (x - 1074))
    if m = 2 ^ 53 then (if 2045 ≤ x then .inf neg else .finite neg (2 ^ 52) (x + 1))
    else if 2045 < x then .inf neg
    else .finite neg m x

/-- The function `tolower` in the C locale. -/
def tolower (c : Char) : Char :=
  if 65 ≤ c.toNat ∧ c.toNat ≤ 90 then Char.ofNat (c.toNat + 32) else c

/-- The test `isxdigit`: a digit or a letter `a` to `f` in either case. -/
def isxdigit (c : Char) : Bool :=
  isdigit c || (decide (97 ≤ (tolower c).toNat) && decide ((tolower c).toNat ≤ 102))

/-- Value of a run of hexadecimal digits, most significant first. -/
def hexValue (ds : List Char) : Nat :=
  ds.foldl
    (fun acc c => 16 * acc + (if isdigit c then c.toNat - 48 else (tolower c).toNat - 87)) 0

/-- The longest run of hexadecimal digits at the front of the stream, and what follows it. -/
def takeHex : Stream → List Char × Stream
  | [] => ([], [])
  | c :: cs => if isxdigit c then ((takeHex cs).1.cons c, (takeHex cs).2) else ([], c :: cs)

/-- The loop that collects the digits of a floating-point input item: digits, one decimal
point, one exponent character (`e`, or `p` for a hexadecimal number) once a digit was read, and
a sign right after the exponent character. The flags are: a digit was read, a point was read,
the exponent character was read, the last byte taken was the exponent character. The first byte
that does not fit stays unread. The exponent character is stored in lower case. -/
def floatItem (hexa : Bool) : Bool → Bool → Bool → Bool → Stream → List Char × Stream
  | _, _, _, _, [] => ([], [])
  | gotDigit, gotDot, gotE, afterE, c :: cs =>
    if isdigit c then
      ((floatItem hexa true gotDot gotE false cs).1.cons c,
        (floatItem hexa true gotDot gotE false cs).2)
    else if !gotE && hexa && isxdigit c then
      ((floatItem hexa true gotDot gotE false cs).1.cons c,
        (floatItem hexa true gotDot gotE false cs).2)
    else if gotE && afterE && (c = '-' || c = '+') then
      ((floatItem hexa gotDigit gotDot gotE false cs).1.cons c,
        (floatItem hexa gotDigit gotDot gotE false cs).2)
    else if gotDigit && !gotE && tolower c = (if hexa then 'p' else 'e') then
      ((floatItem hexa gotDigit true true true cs).1.cons (if hexa then 'p' else 'e'),
        (floatItem hexa gotDigit true true true cs).2)
    else if !gotDot && c = '.' then
      ((floatItem hexa gotDigit true gotE false cs).1.cons c,
        (floatItem hexa gotDigit true gotE false cs).2)
    else ([], c :: cs)

/-- The exponent written after an exponent character: an optional sign and digits; 0 when no
digit follows. -/
def exponentOf : List Char → Int
  | '-' :: t => -((digitsValue (takeDigits t).1 : Nat) : Int)
  | '+' :: t => ((digitsValue (takeDigits t).1 : Nat) : Int)
  | t => ((digitsValue (takeDigits t).1 : Nat) : Int)

/-- Numerator and denominator of `n * b ^ e`. -/
def scaled (n b : Nat) (e : Int) : Nat × Nat :=
  if 0 ≤ e then (n * b ^ e.toNat, 1) else (n, b ^ (-e).toNat)

/-- The function `strtod` on a collected decimal item (sign apart): digits with an optional
point, then an optional exponent; the value as a fraction, `none` when there is no digit. -/
def strtodDecimal (buf : List Char) : Option (Nat × Nat) :=
  let ip := takeDigits buf
  let fp := match ip.2 with
    | '.' :: t => takeDigits t
    | t => ([], t)
  if ip.1 = [] ∧ fp.1 = [] then none
  else
    let e : Int := match fp.2 with
      | 'e' :: t => exponentOf t
      | _ => 0
    some (scaled (digitsValue (ip.1 ++ fp.1)) 10 (e - fp.1.length))

/-- The function `strtod` on what was collected after `0x` (sign apart): hexadecimal digits
with an optional point, then an optional binary exponent; without any digit the value is that
of the `0` before the `x`. -/
def strtodHex (buf : List Char) : Nat × Nat :=
  let ip := takeHex buf
  let fp := match ip.2 with
    | '.' :: t => takeHex t
    | t => ([], t)
  let e : Int := match fp.2 with
    | 'p' :: t => exponentOf t
    | _ => 0
  scaled (hexValue (ip.1 ++ fp.1)) 2 (e - 4 * fp.1.length)

/-- Reading the remaining letters of `nan`, `inf` or `infinity` in either case: whether they
were all there, and the unread input. The byte that does not match is taken from the input
too. -/
def matchWord : List Char → Stream → Bool × Stream
  | [], s => (true, s)
  | _ :: _, [] => (false, [])
  | w :: ws, c :: cs => if tolower c = w then matchWord ws cs else (false, cs)

/-- The input starts with `0x` or `0X`: a hexadecimal number. -/
def isHexStart : Stream → Bool
  | c :: x :: _ => c = '0' && tolower x = 'x'
  | _ => false

/-- The call `scanf("%lf", &x)`: skip white space, then an optional sign, then `nan`, `inf`
or `infinity`, or a hexadecimal number after `0x`, or a decimal number. End-of-file before any
byte of the item is an input failure; an item that is no number is a matching failure. -/
def binary64_scanf_lf (s : Stream) : Scan Binary64Value × Stream :=
  match skipSpace s with
  | [] => (.inputFail, [])
  | c :: cs =>
    let neg : Bool := c = '-'
    let body := if c = '-' ∨ c = '+' then cs else c :: cs
    match body with
    | [] => (.matchFail, [])
    | b :: bs =>
      if tolower b = 'n' then
        if (matchWord ['a', 'n'] bs).1 then (.stored (.nan neg), (matchWord ['a', 'n'] bs).2)
        else (.matchFail, (matchWord ['a', 'n'] bs).2)
      else if tolower b = 'i' then
        if (matchWord ['n', 'f'] bs).1 then
          match (matchWord ['n', 'f'] bs).2 with
          | i :: rest =>
            if tolower i = 'i' then
              if (matchWord ['n', 'i', 't', 'y'] rest).1 then
                (.stored (.inf neg), (matchWord ['n', 'i', 't', 'y'] rest).2)
              else (.matchFail, (matchWord ['n', 'i', 't', 'y'] rest).2)
            else (.stored (.inf neg), i :: rest)
          | [] => (.stored (.inf neg), [])
        else (.matchFail, (matchWord ['n', 'f'] bs).2)
      else if isHexStart (b :: bs) then
        if (floatItem true false false false false (bs.drop 1)).1 = [] then
          (.matchFail, (floatItem true false false false false (bs.drop 1)).2)
        else
          (.stored (roundBinary64 neg
              (strtodHex (floatItem true false false false false (bs.drop 1)).1).1
              (strtodHex (floatItem true false false false false (bs.drop 1)).1).2),
            (floatItem true false false false false (bs.drop 1)).2)
      else
        match strtodDecimal (floatItem false false false false false (b :: bs)).1 with
        | none => (.matchFail, (floatItem false false false false false (b :: bs)).2)
        | some pq =>
          (.stored (roundBinary64 neg pq.1 pq.2),
            (floatItem false false false false false (b :: bs)).2)

/-- The text `printf("%.2lf", x)` produces: the value rounded to hundredths (to nearest, ties
to even, on the exact binary value), with its sign; `inf` and `nan` for the special values. -/
def binary64_printf_2lf : Binary64Value → String
  | .finite neg m x =>
    String.mk ((if neg then ['-'] else [])
      ++ showNat (halfEven (m * 100 * 2 ^ (x - 1074)) (2 ^ (1074 - x)) / 100)
      ++ ['.', Char.ofNat (48 + halfEven (m * 100 * 2 ^ (x - 1074)) (2 ^ (1074 - x)) / 10 % 10),
          Char.ofNat (48 + halfEven (m * 100 * 2 ^ (x - 1074)) (2 ^ (1074 - x)) % 10)])
  | .inf neg => if neg then "-inf" else "inf"
  | .nan neg => if neg then "-nan" else "nan"

/-- The floating-point library of the program: binary64. -/
def Binary64 : FloatLib where
  Double := Binary64Value
  scanf_lf := binary64_scanf_lf
  printf_2lf := binary64_printf_2lf

/-! ## The program -/

/-- The type `union BookStringData` (lines 11-15): its members `title` and `author` are the same
`MAX_STR_LEN` bytes, so the union is that one array of bytes. -/
abbrev BookStringData := List Char

/-- The type `struct BookRecord` (lines 18-25). -/
structure BookRecord (F : FloatLib) where
  accession_number : Int
  price : F.Double
  status_flag : Int
  string_data : BookStringData

/-- The loop `while (getchar() != '\n');` (lines 60, 88, 94). At end-of-file `getchar` returns `EOF`,
which is not `'\n'`, and the loop goes round again. -/
def drain : Nat → Stream → Option Stream
  | 0, _ => none
  | fuel + 1, s =>
    if (getchar s).1 ≠ some '\n' then drain fuel (getchar s).2 else some (getchar s).2

/-- The call `fgets(buf, MAX_STR_LEN, stdin)` followed by `buf[strcspn(buf, "\n")] = 0`
(lines 66-68 for the title, lines 74-75 for the author). An index outside the buffer (an
undefined write in C) leaves the buffer as it is. -/
def read_text (buf : List Char) (s : Stream) : List Char × Stream :=
  ((fgets buf MAX_STR_LEN s).1.set (strcspn (fgets buf MAX_STR_LEN s).1 ['\n']) NUL,
    (fgets buf MAX_STR_LEN s).2)

/-- Steps 1 to 3 of `input_book_details` (lines 57-75): accession number, clearing the rest of
its line, title and author into the shared buffer. The result is the record and the unread input
at the price prompt. -/
def input_texts {F : FloatLib} (fuel : Nat) (book : BookRecord F) (s : Stream) :
    Option (BookRecord F × Stream) :=
  let book1 : BookRecord F :=
    match (scanf_d s).1 with
    | .stored v => { book with accession_number := v }
    | _ => book
  match drain fuel (scanf_d s).2 with
  | none => none
  | some s2 =>
    let title := read_text book1.string_data s2
    let author := read_text title.1 title.2
    some ({ book1 with string_data := author.1 }, author.2)

/-- Step 4 (line 79): `scanf("%lf", &book->price)`, its return value ignored. -/
def input_price {F : FloatLib} (book : BookRecord F) (s : Stream) : BookRecord F × Stream :=
  match (F.scanf_lf s).1 with
  | .stored v => ({ book with price := v }, (F.scanf_lf s).2)
  | _ => (book, (F.scanf_lf s).2)

/-- The prompts `input_book_details` prints before the status loop (lines 55-83). -/
def PROMPTS : List String :=
  ["\nEnter Book Details:\n",
    "1. Enter Accession Number (integer): ",
    "2. Enter Title: ",
    "3. Enter Author: ",
    "4. Enter Price (e.g., 499.50): ₹",
    "5. Enter Status Flag (1 for Issued, 0 for Available): "]

/-- The text printed on a rejected status flag (line 87). -/
def REPROMPT : String := "Invalid status flag. Please enter 1 (Issued) or 0 (Available): "

/-- One pass through the body of the `do … while (1)` loop (lines 86-91): `scanf` writes
straight into `book->status_flag`; then either the attempt is rejected (`false`: the re-prompt is
printed and the rest of the line cleared) or the loop is left (`true`). -/
def status_attempt {F : FloatLib} (fuel : Nat) (book : BookRecord F) (s : Stream) :
    Option (Bool × BookRecord F × Stream) :=
  let book1 : BookRecord F :=
    match (scanf_d s).1 with
    | .stored v => { book with status_flag := v }
    | _ => book
  if (scanf_d s).1.ret ≠ 1 ∨ (book1.status_flag ≠ 0 ∧ book1.status_flag ≠ 1) then
    match drain fuel (scanf_d s).2 with
    | none => none
    | some s2 => some (false, book1, s2)
  else some (true, book1, (scanf_d s).2)

/-- The `do … while (1)` loop (lines 85-92): the record and unread input when it is left, and
the re-prompts printed on the way. -/
def status_loop {F : FloatLib} (fuel : Nat) :
    Nat → BookRecord F → Stream → Option (BookRecord F × Stream × List String)
  | 0, _, _ => none
  | n + 1, book, s =>
    match status_attempt fuel book s with
    | none => none
    | some (true, book1, s1) => some (book1, s1, [])
    | some (false, book1, s1) =>
      match status_loop fuel n book1 s1 with
      | none => none
      | some (book2, s2, out) => some (book2, s2, REPROMPT :: out)

/-- What `input_book_details` leaves behind: the record, the unread input, the text printed. -/
structure Collected (F : FloatLib) where
  book : BookRecord F
  stdin : Stream
  stdout : List String

/-- The function `input_book_details` (lines 53-95). -/
def input_book_details {F : FloatLib} (fuel : Nat) (book : BookRecord F) (s : Stream) :
    Option (Collected F) :=
  match input_texts fuel book s with
  | none => none
  | some (book3, s3) =>
    match status_loop fuel fuel (input_price book3 s3).1 (input_price book3 s3).2 with
    | none => none
    | some (book5, s5, reprompts) =>
      match drain fuel s5 with
      | none => none
      | some s6 =>
        some
          { book := book5
            stdin := s6
            stdout := PROMPTS ++ reprompts }

/-- The function `display_book_details` (lines 101-128): the record after the call (the
parameter is a pointer to `const`, nothing is assigned) and the text printed. -/
def display_book_details {F : FloatLib} (book : BookRecord F) : BookRecord F × List String :=
  (book,
    ["\n============================================\n",
      "            BOOK RECORD DETAILS             \n",
      "============================================\n",
      "Accession Number: **" ++ String.mk (showInt book.accession_number) ++ "**\n",
      "Price: **₹" ++ F.printf_2lf book.price ++ "**\n",
      "Status: **" ++ (if book.status_flag = 1 then "Issued" else "Available") ++ "** ("
        ++ String.mk (showInt book.status_flag) ++ ")\n",
      "\n-- String Data (Last data written is valid) --\n",
      "Author (Last Written Data): **" ++ String.mk (cstr book.string_data) ++ "**\n",
      "============================================\n"])

/-- The function `main` (lines 32-47): exit status and standard output. `current_book` is the
uninitialised local, whatever its bytes happen to be. -/
def main {F : FloatLib} (fuel : Nat) (current_book : BookRecord F) (s : Stream) :
    Option (Int × List String) :=
  match input_book_details fuel current_book s with
  | none => none
  | some r =>
    some (0, ["--- Digital Library Book Management System ---\n"] ++ r.stdout
      ++ (display_book_details r.book).2)


/-! ## Inputs the statements speak of -/

/-- Least value of `int`. -/
def INT_MIN : Int := -(2 : Int) ^ 31

/-- Greatest value of `int`. -/
def INT_MAX : Int := (2 : Int) ^ 31 - 1

/-- Text that `scanf("%d")` cannot convert: it starts with a byte that is neither white space
nor a digit, a leading sign is not followed by a digit, and it has no newline (`abc`, `x1`,
`-`, `+-3`). -/
def nonInteger : List Char → Bool
  | [] => false
  | c :: cs =>
    !isspace c && !isdigit c && !((c :: cs).contains '\n') &&
      (if c = '-' ∨ c = '+' then
        (match cs with
          | [] => true
          | d :: _ => !isdigit d)
      else true)

/-- Text that can follow an integer on its line: it has no newline and does not start with a
digit (nothing at all, ` 1`, `abc`, `.5`). -/
def afterInteger : List Char → Bool
  | [] => true
  | c :: cs => !isdigit c && !((c :: cs).contains '\n')

/-- What the user types on one line at the accession prompt: a decimal integer, with or
without further text after it on the line, or text that is not an integer. -/
inductive Attempt where
  | int (n : Int) (trail : List Char)
  | token (t : List Char)

/-- The bytes of the line typed, without its newline. -/
def Attempt.line : Attempt → List Char
  | .int n trail => showInt n ++ trail
  | .token t => t

/-- The integer fits an `int` and what follows it does not continue the numeral; the token is
text `scanf("%d")` cannot convert. -/
def Attempt.wellFormed : Attempt → Prop
  | .int n trail => INT_MIN ≤ n ∧ n ≤ INT_MAX ∧ afterInteger trail = true
  | .token t => nonInteger t = true

/-- What `scanf("%d")` makes of the attempt. -/
def Attempt.scanned : Attempt → Scan Int
  | .int n _ => .stored n
  | .token _ => .matchFail

instance (a : Attempt) : Decidable a.wellFormed := by
  cases a <;> unfold Attempt.wellFormed <;> infer_instance

/-- The record after `scanf("%d", &book->accession_number)` has met the attempt. -/
def Attempt.storeAccession {F : FloatLib} : Attempt → BookRecord F → BookRecord F
  | .int n _, book => { book with accession_number := n }
  | .token _, book => book

/-- One line typed at a prompt, without its newline: it has no newline and is not blank. -/
def isLine (l : List Char) : Bool :=
  !(l.contains '\n') && l.any (fun c => !isspace c)

/-- The `int` that `scanf("%d")` stores when it meets the line `l`, if it stores one. -/
def leadingInt (l : List Char) : Option Int :=
  match (scanf_d (l ++ ['\n'])).1 with
  | .stored v => some v
  | _ => none

/-- The input made of the given lines, each ended by its newline. -/
def linesOf : List (List Char) → Stream
  | [] => []
  | l :: ls => l ++ '\n' :: linesOf ls

/-- The fields of a record as values: the text field is the C string in the shared buffer. -/
def BookRecord.view {F : FloatLib} (book : BookRecord F) : Int × F.Double × Int × List Char :=
  (book.accession_number, book.price, book.status_flag, cstr book.string_data)

/-! ## Sample records and runs -/

/-- A record whose bytes are arbitrary, as an uninitialised local would be. -/
def garbage : BookRecord Binary64 :=
  { accession_number := 7, price := .finite false 6755399441055744 1023, status_flag := 9,
    string_data := List.replicate 100 'x' }

/-- The session of the specification's scenario: 101, a title, an author, 499.50, status 1. -/
def sessionInput : Stream := "101\nIntro to Systems\nJ. Doe\n499.50\n1\n".toList

/-- The same session with the status attempts 5, abc, 0. -/
def retryInput : Stream := "101\nIntro to Systems\nJ. Doe\n499.50\n5\nabc\n0\n".toList

/-- What `input_book_details` leaves behind on `retryInput`, started on `garbage`: behind the
author's terminating NUL the buffer still holds bytes of the title. -/
def retryResult : Collected Binary64 :=
  { book :=
      { accession_number := 101, price := .finite false 8787296929185792 1030, status_flag := 0,
        string_data := "J. Doe".toList ++ [NUL, NUL] ++ " Systems".toList ++ [NUL, NUL]
          ++ List.replicate 82 'x' }
    stdin := []
    stdout := PROMPTS ++ [REPROMPT, REPROMPT] }

/-- A title line of 102 bytes: 99 times `a`, then `bcd`. -/
def longTitle : List Char := List.replicate 99 'a' ++ "bcd".toList

/-- What `input_book_details` leaves behind on the session 101, `Foo`, `Bar`, 499.50, 1,
started on `garbage`. -/
def fooBarResult : Collected Binary64 :=
  { book :=
      { accession_number := 101, price := .finite false 8787296929185792 1030, status_flag := 1,
        string_data := "Bar".toList ++ [NUL, NUL] ++ List.replicate 95 'x' }
    stdin := []
    stdout := PROMPTS }

/-! ## The C library: lemmas -/

theorem drain_eof (fuel : Nat) : drain fuel [] = none := by
  induction fuel with
  | zero => rfl
  | succ f ih => simp [drain, getchar, ih]

theorem drain_no_newline (fuel : Nat) (s : Stream) (h : '\n' ∉ s) : drain fuel s = none := by
  induction fuel generalizing s with
  | zero => rfl
  | succ f ih =>
    cases s with
    | nil => simp [drain, getchar, drain_eof]
    | cons c cs =>
      simp only [List.mem_cons, not_or] at h
      have hc : c ≠ '\n' := fun e => h.1 e.symm
      simp [drain, getchar, hc, ih cs h.2]

theorem drain_line (fuel : Nat) (l rest : List Char) (h : '\n' ∉ l) (hf : l.length < fuel) :
    drain fuel (l ++ '\n' :: rest) = some rest := by
  induction l generalizing fuel with
  | nil =>
    obtain ⟨f, rfl⟩ : ∃ f, fuel = f + 1 := ⟨fuel - 1, by simp at hf; omega⟩
    simp [drain, getchar]
  | cons c cs ih =>
    obtain ⟨f, rfl⟩ : ∃ f, fuel = f + 1 := ⟨fuel - 1, by simp at hf; omega⟩
    simp only [List.mem_cons, not_or] at h
    have hc : c ≠ '\n' := fun e => h.1 e.symm
    simp only [List.length_cons, Nat.add_lt_add_iff_right] at hf
    simp [drain, getchar, hc, ih f h.2 hf]

theorem drain_short (fuel : Nat) (l rest : List Char) (h : '\n' ∉ l) (hf : fuel ≤ l.length) :
    drain fuel (l ++ rest) = none := by
  induction fuel generalizing l with
  | zero => rfl
  | succ f ih =>
    cases l with
    | nil => simp at hf
    | cons c cs =>
      simp only [List.mem_cons, not_or] at h
      have hc : c ≠ '\n' := fun e => h.1 e.symm
      simp only [List.length_cons, Nat.add_le_add_iff_right] at hf
      simp [drain, getchar, hc, ih cs h.2 hf]

theorem drain_line_eq (fuel : Nat) (l rest : List Char) (h : '\n' ∉ l) :
    drain fuel (l ++ '\n' :: rest) = if l.length < fuel then some rest else none := by
  by_cases hf : l.length < fuel
  · rw [if_pos hf, drain_line fuel l rest h hf]
  · rw [if_neg hf, drain_short fuel l _ h (by omega)]

theorem digit_toNat (k : Nat) (h : k < 10) : (Char.ofNat (48 + k)).toNat = 48 + k := by
  interval_cases k <;> rfl

theorem isdigit_ofNat (k : Nat) (h : k < 10) : isdigit (Char.ofNat (48 + k)) = true := by
  interval_cases k <;> rfl

theorem isdigit_not_space (c : Char) (h : isdigit c = true) : isspace c = false := by
  by_contra hs
  simp only [isspace, Bool.not_eq_false, Bool.or_eq_true, decide_eq_true_eq] at hs
  rcases hs with ((((rfl | rfl) | rfl) | rfl) | rfl) | rfl <;> simp [isdigit] at h

theorem isdigit_not_sign (c : Char) (h : isdigit c = true) : c ≠ '-' ∧ c ≠ '+' := by
  constructor <;> rintro rfl <;> simp [isdigit] at h

theorem isdigit_not_newline (c : Char) (h : isdigit c = true) : c ≠ '\n' := by
  rintro rfl; simp [isdigit] at h

theorem takeDigits_digits (ds r : List Char) (hds : ∀ c ∈ ds, isdigit c = true)
    (hr : ∀ c ∈ r.head?, isdigit c = false) : takeDigits (ds ++ r) = (ds, r) := by
  induction ds with
  | nil =>
    cases r with
    | nil => rfl
    | cons c cs => simp [takeDigits, hr c (by simp)]
  | cons d ds ih =>
    have hd := hds d (by simp)
    have := ih (fun c hc => hds c (by simp [hc]))
    simp [takeDigits, hd, this]

theorem digitsValue_snoc (ds : List Char) (c : Char) :
    digitsValue (ds ++ [c]) = 10 * digitsValue ds + (c.toNat - 48) := by
  simp [digitsValue, List.foldl_append]

theorem showNatAux_spec (f n : Nat) (acc : List Char) (h : n < f) :
    ∃ d ds, showNatAux f n acc = d :: ds ++ acc ∧ (∀ c ∈ d :: ds, isdigit c = true) ∧
      digitsValue (d :: ds) = n := by
  induction f generalizing n acc with
  | zero => omega
  | succ f ih =>
    have hlt : n % 10 < 10 := Nat.mod_lt _ (by norm_num)
    by_cases h0 : n / 10 = 0
    · refine ⟨Char.ofNat (48 + n % 10), [], by simp [showNatAux, h0], ?_, ?_⟩
      · intro c hc
        simp only [List.mem_singleton] at hc
        subst hc
        exact isdigit_ofNat _ hlt
      · have := digitsValue_snoc [] (Char.ofNat (48 + n % 10))
        simp only [List.nil_append] at this
        rw [this, digit_toNat _ hlt]
        simp [digitsValue]
        omega
    · obtain ⟨d, ds, he, hd, hv⟩ := ih (n / 10) (Char.ofNat (48 + n % 10) :: acc) (by omega)
      refine ⟨d, ds ++ [Char.ofNat (48 + n % 10)], by simp [showNatAux, h0, he], ?_, ?_⟩
      · intro c hc
        simp only [List.mem_cons, List.mem_append, List.mem_singleton, List.not_mem_nil,
          or_false] at hc
        rcases hc with rfl | hc | rfl
        · exact hd _ (by simp)
        · exact hd _ (by simp [hc])
        · exact isdigit_ofNat _ hlt
      · rw [← List.cons_append, digitsValue_snoc, hv, digit_toNat _ hlt]
        omega

theorem showNat_spec (n : Nat) :
    ∃ d ds, showNat n = d :: ds ∧ (∀ c ∈ d :: ds, isdigit c = true) ∧
      digitsValue (d :: ds) = n := by
  obtain ⟨d, ds, he, hd, hv⟩ := showNatAux_spec (n + 1) n [] (by omega)
  exact ⟨d, ds, by simpa [showNat] using he, hd, hv⟩

theorem toInt32_clampLong (n : Int) (h1 : INT_MIN ≤ n) (h2 : n ≤ INT_MAX) :
    toInt32 (clampLong n) = n := by
  simp only [INT_MIN, INT_MAX] at h1 h2
  norm_num at h1 h2
  have hc : clampLong n = n := by
    unfold clampLong
    norm_num
    rw [if_neg (by omega), if_neg (by omega)]
  rw [hc]
  unfold toInt32
  norm_num
  omega


theorem skipSpace_cons (c : Char) (cs : List Char) (h : isspace c = false) :
    skipSpace (c :: cs) = c :: cs := by
  simp [skipSpace, h]

theorem scanf_d_showInt (n : Int) (c : Char) (rest : List Char) (h1 : INT_MIN ≤ n)
    (h2 : n ≤ INT_MAX) (hc : isdigit c = false) :
    scanf_d (showInt n ++ c :: rest) = (.stored n, c :: rest) := by
  cases n with
  | ofNat k =>
    obtain ⟨d, ds, he, hd, hv⟩ := showNat_spec k
    have hd0 := hd d (by simp)
    have htd := takeDigits_digits (d :: ds) (c :: rest) hd (by simpa using hc)
    have hsign := isdigit_not_sign d hd0
    simp only [showInt, he, scanf_d, List.cons_append,
      skipSpace_cons d _ (isdigit_not_space d hd0), hsign.1, hsign.2, or_self, if_false]
    rw [List.cons_append] at htd
    rw [htd]
    simp only [hv]
    have h := toInt32_clampLong _ h1 h2
    simp only [Int.ofNat_eq_coe] at h ⊢
    rw [h]
  | negSucc k =>
    obtain ⟨d, ds, he, hd, hv⟩ := showNat_spec (k + 1)
    have htd := takeDigits_digits (d :: ds) (c :: rest) hd (by simpa using hc)
    have hsp : isspace '-' = false := by decide
    simp only [showInt, he, scanf_d, List.cons_append, skipSpace_cons '-' _ hsp, true_or, if_true]
    rw [List.cons_append] at htd
    rw [htd]
    simp only [hv]
    have : (-((k + 1 : Nat) : Int)) = Int.negSucc k := by
      rw [Int.negSucc_eq]; push_cast; ring
    rw [this, toInt32_clampLong _ h1 h2]

theorem scanf_d_token (t : List Char) (ht : nonInteger t = true) :
    ∃ u, (∀ rest, scanf_d (t ++ '\n' :: rest) = (.matchFail, u ++ '\n' :: rest)) ∧ '\n' ∉ u ∧
      u.length ≤ t.length := by
  cases t with
  | nil => simp [nonInteger] at ht
  | cons c cs =>
    simp only [nonInteger, Bool.and_eq_true, Bool.not_eq_true', List.contains_eq_any_beq,
      List.any_eq_false, beq_iff_eq] at ht
    obtain ⟨⟨⟨hsp, hdg⟩, hnl⟩, hsign⟩ := ht
    have hnl' : '\n' ∉ c :: cs := fun hm => hnl _ hm rfl
    have hnl2 : '\n' ∉ cs := fun hm => hnl' (List.mem_cons_of_mem _ hm)
    have hnd : isdigit '\n' = false := by decide
    by_cases hs : c = '-' ∨ c = '+'
    · rw [if_pos hs] at hsign
      cases cs with
      | nil =>
        refine ⟨[], fun rest => ?_, by simp, by simp⟩
        simp [scanf_d, skipSpace, hsp, hs, takeDigits, hnd]
      | cons d ds =>
        simp only [Bool.not_eq_true'] at hsign
        refine ⟨d :: ds, fun rest => ?_, hnl2, by simp⟩
        simp [scanf_d, skipSpace, hsp, hs, takeDigits, hsign]
    · refine ⟨c :: cs, fun rest => ?_, hnl', le_refl _⟩
      simp [scanf_d, skipSpace, hsp, hs, takeDigits, hdg]

theorem afterInteger_spec (trail rest : List Char) (ht : afterInteger trail = true) :
    '\n' ∉ trail ∧ ∃ c tl, trail ++ '\n' :: rest = c :: tl ∧ isdigit c = false := by
  cases trail with
  | nil => exact ⟨by simp, '\n', rest, rfl, by decide⟩
  | cons c cs =>
    simp only [afterInteger, Bool.and_eq_true, Bool.not_eq_true', List.contains_eq_any_beq,
      List.any_eq_false, beq_iff_eq] at ht
    exact ⟨fun hm => ht.2 _ hm rfl, c, cs ++ '\n' :: rest, rfl, ht.1⟩

theorem scanf_d_int_line (n : Int) (trail rest : List Char) (h1 : INT_MIN ≤ n)
    (h2 : n ≤ INT_MAX) (ht : afterInteger trail = true) :
    scanf_d ((showInt n ++ trail) ++ '\n' :: rest) = (.stored n, trail ++ '\n' :: rest) := by
  obtain ⟨-, c, tl, e, hc⟩ := afterInteger_spec trail rest ht
  rw [List.append_assoc, e]
  exact scanf_d_showInt n c tl h1 h2 hc

theorem scanf_d_attempt (a : Attempt) (hw : a.wellFormed) :
    ∃ u, (∀ rest, scanf_d (a.line ++ '\n' :: rest) = (a.scanned, u ++ '\n' :: rest)) ∧ '\n' ∉ u ∧
      u.length ≤ a.line.length := by
  cases a with
  | int n trail =>
    refine ⟨trail, fun rest => ?_, (afterInteger_spec trail [] hw.2.2).1, by simp [Attempt.line]⟩
    exact scanf_d_int_line n trail rest hw.1 hw.2.1 hw.2.2
  | token t => exact scanf_d_token t hw

theorem skipSpace_append (ws x : List Char) (hws : ∀ c ∈ ws, isspace c = true) :
    skipSpace (ws ++ x) = skipSpace x := by
  induction ws with
  | nil => rfl
  | cons c cs ih =>
    simp [skipSpace, hws c (by simp), ih (fun d hd => hws d (by simp [hd]))]

theorem scanf_d_skips (ws x : List Char) (hws : ∀ c ∈ ws, isspace c = true) :
    scanf_d (ws ++ x) = scanf_d x := by
  unfold scanf_d
  rw [skipSpace_append ws x hws]

/-! ## Floating point: lemmas -/

theorem log2Aux_le (f n k : Nat) (h : n < 2 ^ (k + 1)) : log2Aux f n ≤ k := by
  induction f generalizing n k with
  | zero => simp [log2Aux]
  | succ f ih =>
    unfold log2Aux
    split
    · omega
    · rename_i h2
      cases k with
      | zero => simp at h; omega
      | succ k =>
        have h3 : n / 2 < 2 ^ (k + 1) := by
          rw [Nat.div_lt_iff_lt_mul (by norm_num)]
          rw [pow_succ] at h
          exact h
        have := ih (n / 2) k h3
        omega

theorem halfEven_spec (a d : Nat) (hd : 0 < d) :
    2 * (halfEven a d * d) ≤ 2 * a + d ∧ 2 * a ≤ 2 * (halfEven a d * d) + d := by
  have h1 := Nat.div_add_mod a d
  have h2 := Nat.mod_lt a hd
  unfold halfEven
  generalize a / d = q at *
  generalize a % d = r at *
  split
  · rename_i hc
    have e : (q + 1) * d = d * q + d := by ring
    rw [e]
    generalize d * q = t at *
    rcases hc with hc | ⟨hc, -⟩ <;> omega
  · rename_i hc
    have e : q * d = d * q := by ring
    rw [e]
    generalize d * q = t at *
    push_neg at hc
    omega

theorem halfEven_eq (a d n : Nat) (h1 : 2 * a < 2 * (n * d) + d) (h2 : 2 * (n * d) < 2 * a + d) :
    halfEven a d = n := by
  have hd : 0 < d := by
    rcases Nat.eq_zero_or_pos d with h | h
    · subst h
      simp at h1
    · exact h
  have e1 := Nat.div_add_mod a d
  have e2 := Nat.mod_lt a hd
  have hq1 : a / d ≤ n := by
    by_contra hc
    push_neg at hc
    have : (n + 1) * d ≤ a / d * d := Nat.mul_le_mul_right d hc
    have e3 : a / d * d = d * (a / d) := by ring
    have e4 : (n + 1) * d = n * d + d := by ring
    rw [e3, e4] at this
    generalize d * (a / d) = t at *
    generalize n * d = u at *
    omega
  have hq2 : n ≤ a / d + 1 := by
    by_contra hc
    push_neg at hc
    have : (a / d + 2) * d ≤ n * d := Nat.mul_le_mul_right d hc
    have e4 : (a / d + 2) * d = d * (a / d) + 2 * d := by ring
    rw [e4] at this
    generalize d * (a / d) = t at *
    generalize n * d = u at *
    omega
  unfold halfEven
  rcases Nat.lt_or_ge (a / d) n with hlt | hge
  · have hn : n = a / d + 1 := by omega
    have e4 : n * d = d * (a / d) + d := by rw [hn]; ring
    rw [e4] at h1 h2
    generalize hr : a % d = r at *
    generalize hq : a / d = q at *
    generalize d * q = t at *
    rw [if_pos (Or.inl (by omega))]
    omega
  · have hn : n = a / d := by omega
    have e4 : n * d = d * (a / d) := by rw [hn]; ring
    rw [e4] at h1 h2
    generalize hr : a % d = r at *
    generalize hq : a / d = q at *
    generalize d * q = t at *
    rw [if_neg (by push_neg; exact ⟨by omega, fun h => by omega⟩)]
    omega

theorem halfEven_zero (d : Nat) : halfEven 0 d = 0 := by
  unfold halfEven
  simp

/-- A count of hundredths below `100 * 2 ^ 46`, converted to binary64 and printed with two
decimals, comes back digit for digit. -/
theorem echo_hundredths (neg : Bool) (n : Nat) (hn : n < 100 * 2 ^ 46) :
    binary64_printf_2lf (roundBinary64 neg n 100)
      = String.mk ((if neg then ['-'] else []) ++ showNat (n / 100)
          ++ ['.', Char.ofNat (48 + n / 10 % 10), Char.ofNat (48 + n % 10)]) := by
  have key : ∀ m x, roundBinary64 neg n 100 = .finite neg m x →
      halfEven (m * 100 * 2 ^ (x - 1074)) (2 ^ (1074 - x)) = n →
      binary64_printf_2lf (roundBinary64 neg n 100)
        = String.mk ((if neg then ['-'] else []) ++ showNat (n / 100)
            ++ ['.', Char.ofNat (48 + n / 10 % 10), Char.ofNat (48 + n % 10)]) := by
    intro m x h1 h2
    rw [h1]
    simp only [binary64_printf_2lf, h2]
  rcases Nat.eq_zero_or_pos n with h0 | hpos
  · subst h0
    refine key 0 0 (by simp [roundBinary64]) ?_
    exact halfEven_zero _
  have hb : ilog2 100 = 6 := by decide
  have ha : ilog2 n ≤ 52 := log2Aux_le n n 52 (by norm_num at hn ⊢; omega)
  generalize hA : ilog2 n = a at ha
  have hx : ∀ x, x = a + 1022 - 6 - (if 100 * 2 ^ a ≤ n * 2 ^ 6 then 0 else 1) → x ≤ 1067 := by
    intro x hx
    split_ifs at hx with hc
    · have : a < 52 := by
        by_contra hge
        push_neg at hge
        have := Nat.pow_le_pow_right (show 0 < 2 by norm_num) hge
        norm_num at hc hn this
        omega
      omega
    · omega
  generalize hX : a + 1022 - 6 - (if 100 * 2 ^ a ≤ n * 2 ^ 6 then 0 else 1) = x at hx
  have hx' := hx x rfl
  obtain ⟨k, hk⟩ : ∃ k, 1074 - x = k + 7 := ⟨1074 - x - 7, by omega⟩
  have hx0 : x - 1074 = 0 := by omega
  have hspec := halfEven_spec (n * 2 ^ (k + 7)) 100 (by norm_num)
  have hpow : 2 ^ (k + 7) = 128 * 2 ^ k := by rw [pow_add]; ring
  have hpos2 : 0 < 2 ^ k := by positivity
  have hround : roundBinary64 neg n 100
      = if halfEven (n * 2 ^ (k + 7)) 100 = 2 ^ 53 then .finite neg (2 ^ 52) (x + 1)
        else .finite neg (halfEven (n * 2 ^ (k + 7)) 100) x := by
    simp only [roundBinary64, hA, hb, hX, hk, hx0, pow_zero, mul_one]
    rw [if_neg (by omega)]
    split_ifs <;> first | rfl | omega
  have e3 : n * (128 * 2 ^ k) = 128 * (n * 2 ^ k) := by ring
  have e4 : n * (64 * 2 ^ k) = 64 * (n * 2 ^ k) := by ring
  by_cases hc : halfEven (n * 2 ^ (k + 7)) 100 = 2 ^ 53
  · rw [if_pos hc] at hround
    refine key _ _ hround ?_
    have e1 : x + 1 - 1074 = 0 := by omega
    have e2 : 1074 - (x + 1) = k + 6 := by omega
    rw [e1, e2, pow_zero, mul_one]
    rw [hc, hpow, e3] at hspec
    have hpow6 : 2 ^ (k + 6) = 64 * 2 ^ k := by rw [pow_add]; ring
    apply halfEven_eq
    · rw [hpow6, e4]
      generalize n * 2 ^ k = t at *
      norm_num at hspec ⊢
      omega
    · rw [hpow6, e4]
      generalize n * 2 ^ k = t at *
      norm_num at hspec ⊢
      omega
  · rw [if_neg hc] at hround
    refine key _ _ hround ?_
    rw [hx0, hk, pow_zero, mul_one]
    rw [hpow, e3] at hspec
    apply halfEven_eq
    · rw [hpow, e3]
      generalize n * 2 ^ k = t at *
      generalize halfEven _ 100 = h at *
      omega
    · rw [hpow, e3]
      generalize n * 2 ^ k = t at *
      generalize halfEven _ 100 = h at *
      omega

theorem tolower_digit (c : Char) (h : isdigit c = true) : tolower c = c := by
  simp only [isdigit, Bool.and_eq_true, decide_eq_true_eq] at h
  unfold tolower
  rw [if_neg (by omega)]

theorem digit_not_letter (c : Char) (h : isdigit c = true) :
    c ≠ 'n' ∧ c ≠ 'i' ∧ c ≠ 'x' ∧ c ≠ 'e' ∧ c ≠ '.' ∧ c ≠ '-' ∧ c ≠ '+' := by
  refine ⟨?_, ?_, ?_, ?_, ?_, ?_, ?_⟩ <;> rintro rfl <;> simp [isdigit] at h

theorem floatItem_fraction (gd : Bool) (fp rest : List Char)
    (hfp : ∀ c ∈ fp, isdigit c = true) :
    floatItem false gd true false false (fp ++ '\n' :: rest) = (fp, '\n' :: rest) := by
  induction fp generalizing gd with
  | nil =>
    have h1 : isdigit '\n' = false := by decide
    have h2 : tolower '\n' ≠ 'e' := by decide
    simp [floatItem, h1, h2]
  | cons d ds ih =>
    have hd := hfp d (by simp)
    simp [floatItem, hd, ih true (fun c hc => hfp c (by simp [hc]))]

theorem floatItem_numeral (gd : Bool) (ip fp rest : List Char)
    (hip : ∀ c ∈ ip, isdigit c = true) (hfp : ∀ c ∈ fp, isdigit c = true) :
    floatItem false gd false false false (ip ++ '.' :: (fp ++ '\n' :: rest))
      = (ip ++ '.' :: fp, '\n' :: rest) := by
  induction ip generalizing gd with
  | nil =>
    have h1 : isdigit '.' = false := by decide
    have h2 : tolower '.' ≠ 'e' := by decide
    simp [floatItem, h1, h2, floatItem_fraction gd fp rest hfp]
  | cons d ds ih =>
    have hd := hip d (by simp)
    simp [floatItem, hd, ih true (fun c hc => hip c (by simp [hc]))]

theorem strtodDecimal_numeral (d : Char) (ds fp : List Char) (hd : isdigit d = true)
    (hds : ∀ c ∈ ds, isdigit c = true) (hfp : ∀ c ∈ fp, isdigit c = true) :
    strtodDecimal ((d :: ds) ++ '.' :: fp)
      = some (scaled (digitsValue ((d :: ds) ++ fp)) 10 (0 - (fp.length : Int))) := by
  have h1 := takeDigits_digits (d :: ds) ('.' :: fp)
    (by
      intro c hc
      simp only [List.mem_cons] at hc
      rcases hc with rfl | hc
      · exact hd
      · exact hds c hc) (by simp; decide)
  have h2 := takeDigits_digits fp [] hfp (by simp)
  rw [List.append_nil] at h2
  simp only [strtodDecimal, h1, h2]
  simp

/-- Reading a decimal numeral with a point, with or without a minus sign, written on a line:
the numeral is taken whole, its newline stays unread, and the value stored is the nearest
binary64 value. -/
theorem scanf_lf_numeral (neg : Bool) (d : Char) (ds fp rest : List Char)
    (hd : isdigit d = true) (hds : ∀ c ∈ ds, isdigit c = true)
    (hfp : ∀ c ∈ fp, isdigit c = true) :
    binary64_scanf_lf ((if neg then ['-'] else []) ++ ((d :: ds) ++ '.' :: (fp ++ '\n' :: rest)))
      = (.stored (roundBinary64 neg
            (scaled (digitsValue ((d :: ds) ++ fp)) 10 (0 - (fp.length : Int))).1
            (scaled (digitsValue ((d :: ds) ++ fp)) 10 (0 - (fp.length : Int))).2),
          '\n' :: rest) := by
  have hall : ∀ c ∈ d :: ds, isdigit c = true := by
    intro c hc
    simp only [List.mem_cons] at hc
    rcases hc with rfl | hc
    · exact hd
    · exact hds c hc
  have hitem := floatItem_numeral false (d :: ds) fp rest hall hfp
  have hnl := digit_not_letter d hd
  have hlow := tolower_digit d hd
  have hhex : isHexStart (d :: (ds ++ '.' :: (fp ++ '\n' :: rest))) = false := by
    cases ds with
    | nil =>
      have : tolower '.' ≠ 'x' := by decide
      simp [isHexStart, this]
    | cons e es =>
      have he := hds e (by simp)
      have h3 := digit_not_letter e he
      simp [isHexStart, tolower_digit e he, h3.2.2.1]
  rw [List.cons_append] at hitem
  cases neg with
  | false =>
    rw [if_neg (by simp), List.nil_append, List.cons_append]
    simp only [binary64_scanf_lf, skipSpace_cons d _ (isdigit_not_space d hd), hnl.2.2.2.2.2.1,
      hnl.2.2.2.2.2.2, or_self, if_false, hlow, hnl.1, hnl.2.1, hhex, hitem,
      Bool.false_eq_true]
    rw [strtodDecimal_numeral d ds fp hd hds hfp]
    simp
  | true =>
    rw [if_pos rfl, List.singleton_append, List.cons_append]
    have hm : isspace '-' = false := by decide
    simp only [binary64_scanf_lf, skipSpace_cons '-' _ hm, true_or, if_true, hlow, hnl.1,
      hnl.2.1, hhex, hitem, Bool.false_eq_true, if_false]
    rw [strtodDecimal_numeral d ds fp hd hds hfp]
    simp

theorem scanf_lf_skips (ws x : List Char) (hws : ∀ c ∈ ws, isspace c = true) :
    binary64_scanf_lf (ws ++ x) = binary64_scanf_lf x := by
  unfold binary64_scanf_lf
  rw [skipSpace_append ws x hws]

/-- A price written as a natural number below `2 ^ 46`, a point and two decimals, with or
without a minus sign: `scanf` takes it whole and `printf("%.2lf")` prints the value stored as
the same text. -/
theorem price_echo (neg : Bool) (k : Nat) (d1 d2 : Char) (rest : List Char) (hk : k < 2 ^ 46)
    (hd1 : isdigit d1 = true) (hd2 : isdigit d2 = true) :
    ∃ v, binary64_scanf_lf
          (((if neg then ['-'] else []) ++ showNat k ++ ['.', d1, d2]) ++ '\n' :: rest)
        = (.stored v, '\n' :: rest) ∧
      binary64_printf_2lf v
        = String.mk ((if neg then ['-'] else []) ++ showNat k ++ ['.', d1, d2]) := by
  obtain ⟨d, ds, he, hd, hv⟩ := showNat_spec k
  have hd0 := hd d (by simp)
  have hds : ∀ c ∈ ds, isdigit c = true := fun c hc => hd c (by simp [hc])
  have hfp : ∀ c ∈ [d1, d2], isdigit c = true := by
    intro c hc
    simp only [List.mem_cons, List.mem_singleton, List.not_mem_nil, or_false] at hc
    rcases hc with rfl | rfl
    · exact hd1
    · exact hd2
  have hscan := scanf_lf_numeral neg d ds [d1, d2] rest hd0 hds hfp
  have hN : digitsValue ((d :: ds) ++ [d1, d2])
      = 100 * k + 10 * (d1.toNat - 48) + (d2.toNat - 48) := by
    have e : (d :: ds) ++ [d1, d2] = ((d :: ds) ++ [d1]) ++ [d2] := by simp
    rw [e, digitsValue_snoc, digitsValue_snoc, hv]
    ring
  have hsc : scaled (digitsValue ((d :: ds) ++ [d1, d2])) 10
      (0 - (([d1, d2] : List Char).length : Int))
      = (digitsValue ((d :: ds) ++ [d1, d2]), 100) := by
    simp [scaled]
  rw [hsc] at hscan
  have h1 := hd1
  have h2 := hd2
  simp only [isdigit, Bool.and_eq_true, decide_eq_true_eq] at h1 h2
  refine ⟨roundBinary64 neg (digitsValue ((d :: ds) ++ [d1, d2])) 100, ?_, ?_⟩
  · rw [he]
    have e : ((if neg then ['-'] else []) ++ (d :: ds) ++ ['.', d1, d2]) ++ '\n' :: rest
        = (if neg then ['-'] else []) ++ ((d :: ds) ++ '.' :: ([d1, d2] ++ '\n' :: rest)) := by
      simp
    rw [e]
    exact hscan
  · rw [echo_hundredths neg _ (by rw [hN]; norm_num at hk ⊢; omega), hN]
    have q1 : (100 * k + 10 * (d1.toNat - 48) + (d2.toNat - 48)) / 100 = k := by omega
    have q2 : 48 + (100 * k + 10 * (d1.toNat - 48) + (d2.toNat - 48)) / 10 % 10 = d1.toNat := by
      omega
    have q3 : 48 + (100 * k + 10 * (d1.toNat - 48) + (d2.toNat - 48)) % 10 = d2.toNat := by
      omega
    rw [q1, q2, q3, Char.ofNat_toNat, Char.ofNat_toNat]

/-! ## The status-flag loop -/

theorem status_loop_skips {F : FloatLib} (fuel n : Nat) (book : BookRecord F) (ws x : List Char)
    (hws : ∀ c ∈ ws, isspace c = true) :
    status_loop fuel n book (ws ++ x) = status_loop fuel n book x := by
  cases n with
  | zero => rfl
  | succ m =>
    have h : status_attempt fuel book (ws ++ x) = status_attempt fuel book x := by
      unfold status_attempt
      rw [scanf_d_skips ws x hws]
    unfold status_loop
    rw [h]

theorem isLine_spec (l : List Char) (hl : isLine l = true) :
    '\n' ∉ l ∧ ∃ c ∈ l, isspace c = false := by
  simp only [isLine, Bool.and_eq_true, Bool.not_eq_true', List.contains_eq_any_beq,
    List.any_eq_false, beq_iff_eq, List.any_eq_true, Bool.not_eq_true'] at hl
  exact ⟨fun hm => hl.1 _ hm rfl, hl.2⟩

theorem takeDigits_stop (m r : List Char) (c : Char) (hc : isdigit c = false) :
    takeDigits (m ++ c :: r) = ((takeDigits m).1, (takeDigits m).2 ++ c :: r) := by
  induction m with
  | nil => simp [takeDigits, hc]
  | cons d ds ih =>
    by_cases hd : isdigit d = true
    · simp [takeDigits, hd, ih]
    · simp [takeDigits, hd]

theorem takeDigits_rest (m : List Char) :
    (∀ c ∈ (takeDigits m).2, c ∈ m) ∧ (takeDigits m).2.length ≤ m.length := by
  induction m with
  | nil => simp [takeDigits]
  | cons d ds ih =>
    by_cases hd : isdigit d = true
    · simp only [takeDigits, hd, if_true]
      refine ⟨fun c hc => List.mem_cons_of_mem _ (ih.1 c hc), ?_⟩
      have := ih.2
      simp only [List.length_cons]
      omega
    · simp [takeDigits, hd]

theorem skipSpace_line (l : List Char) (hnl : '\n' ∉ l) (hex : ∃ c ∈ l, isspace c = false) :
    ∃ c t, isspace c = false ∧ (∀ x, skipSpace (l ++ x) = c :: (t ++ x)) ∧
      '\n' ∉ c :: t ∧ (c :: t).length ≤ l.length := by
  induction l with
  | nil =>
    obtain ⟨c, hc, -⟩ := hex
    simp at hc
  | cons a l ih =>
    by_cases ha : isspace a = true
    · have hnl2 : '\n' ∉ l := fun hm => hnl (List.mem_cons_of_mem _ hm)
      have hex2 : ∃ c ∈ l, isspace c = false := by
        obtain ⟨c, hc, hsp⟩ := hex
        simp only [List.mem_cons] at hc
        rcases hc with rfl | hc
        · rw [ha] at hsp
          cases hsp
        · exact ⟨c, hc, hsp⟩
      obtain ⟨c, t, h1, h2, h3, h4⟩ := ih hnl2 hex2
      refine ⟨c, t, h1, fun x => ?_, h3, ?_⟩
      · simp only [List.cons_append, skipSpace, ha, if_true]
        exact h2 x
      · simp only [List.length_cons] at h4 ⊢
        omega
    · refine ⟨a, l, by simpa using ha, fun x => ?_, hnl, le_refl _⟩
      simp [skipSpace, ha]

/-- On a line, what `scanf("%d")` reads depends on the line alone, and what it leaves unread
is an end of the line followed by the line's newline and the rest of the input. -/
theorem scanf_d_line (l : List Char) (hl : isLine l = true) :
    ∃ u, '\n' ∉ u ∧ u.length ≤ l.length ∧
      ∀ rest, scanf_d (l ++ '\n' :: rest) = ((scanf_d (l ++ ['\n'])).1, u ++ '\n' :: rest) := by
  obtain ⟨hnl, hex⟩ := isLine_spec l hl
  obtain ⟨c, t, hc, hskip, hct, hlen⟩ := skipSpace_line l hnl hex
  have hnd : isdigit '\n' = false := by decide
  have hnt : '\n' ∉ t := fun hm => hct (List.mem_cons_of_mem _ hm)
  by_cases hs : c = '-' ∨ c = '+'
  · have key : ∀ rest, scanf_d (l ++ '\n' :: rest)
        = ((match (takeDigits t).1 with
            | [] => Scan.matchFail
            | d :: ds => Scan.stored (toInt32 (clampLong
                (if c = '-' then -((digitsValue (d :: ds) : Nat) : Int)
                  else ((digitsValue (d :: ds) : Nat) : Int))))),
          (takeDigits t).2 ++ '\n' :: rest) := by
      intro rest
      simp only [scanf_d, hskip, hs, if_true, takeDigits_stop t rest '\n' hnd]
      cases (takeDigits t).1 <;> rfl
    refine ⟨(takeDigits t).2, fun hm => hnt ((takeDigits_rest t).1 _ hm), ?_, fun rest => ?_⟩
    · have := (takeDigits_rest t).2
      simp only [List.length_cons] at hlen
      omega
    · rw [key rest, key []]
  · have key : ∀ rest, scanf_d (l ++ '\n' :: rest)
        = ((match (takeDigits (c :: t)).1 with
            | [] => Scan.matchFail
            | d :: ds => Scan.stored (toInt32 (clampLong
                (if c = '-' then -((digitsValue (d :: ds) : Nat) : Int)
                  else ((digitsValue (d :: ds) : Nat) : Int))))),
          (takeDigits (c :: t)).2 ++ '\n' :: rest) := by
      intro rest
      have e : takeDigits (c :: (t ++ '\n' :: rest))
          = ((takeDigits (c :: t)).1, (takeDigits (c :: t)).2 ++ '\n' :: rest) :=
        takeDigits_stop (c :: t) rest '\n' hnd
      simp only [scanf_d, hskip, hs, if_false, e]
      cases (takeDigits (c :: t)).1 <;> rfl
    refine ⟨(takeDigits (c :: t)).2, fun hm => hct ((takeDigits_rest (c :: t)).1 _ hm), ?_,
      fun rest => ?_⟩
    · have := (takeDigits_rest (c :: t)).2
      omega
    · rw [key rest, key []]

theorem status_attempt_rejected {F : FloatLib} (l : List Char) (hl : isLine l = true)
    (h0 : leadingInt l ≠ some 0) (h1 : leadingInt l ≠ some 1) (fuel : Nat)
    (hf : l.length < fuel) (book : BookRecord F) (rest : List Char) :
    status_attempt fuel book (l ++ '\n' :: rest)
      = some (false,
          { accession_number := book.accession_number, price := book.price,
            status_flag := (leadingInt l).getD book.status_flag,
            string_data := book.string_data }, rest) := by
  obtain ⟨u, hu, hlen, he⟩ := scanf_d_line l hl
  have hd := drain_line fuel u rest hu (by omega)
  unfold status_attempt
  rw [he rest]
  unfold leadingInt at h0 h1 ⊢
  cases hsc : (scanf_d (l ++ ['\n'])).1 with
  | stored v =>
    simp only [hsc, ne_eq, Option.some.injEq] at h0 h1
    simp [hd, Scan.ret, h0, h1]
  | matchFail => simp [hd, Scan.ret]
  | inputFail => simp [hd, Scan.ret]

theorem status_attempt_accepted (l : List Char) (hl : isLine l = true) (v : Int)
    (hv : leadingInt l = some v) (hv01 : v = 0 ∨ v = 1) :
    ∃ u, '\n' ∉ u ∧ u.length ≤ l.length ∧
      ∀ (F : FloatLib) (fuel : Nat) (book : BookRecord F) (rest : List Char),
        status_attempt fuel book (l ++ '\n' :: rest)
          = some (true, { book with status_flag := v }, u ++ '\n' :: rest) := by
  obtain ⟨u, hu, hlen, he⟩ := scanf_d_line l hl
  refine ⟨u, hu, hlen, fun F fuel book rest => ?_⟩
  unfold status_attempt
  rw [he rest]
  unfold leadingInt at hv
  cases hsc : (scanf_d (l ++ ['\n'])).1 with
  | stored w =>
    simp only [hsc, Option.some.injEq] at hv
    subst hv
    rcases hv01 with rfl | rfl <;> simp [Scan.ret]
  | matchFail => simp [hsc] at hv
  | inputFail => simp [hsc] at hv

theorem status_loop_lines (bad : List (List Char))
    (hbad : ∀ l ∈ bad, isLine l = true ∧ leadingInt l ≠ some 0 ∧ leadingInt l ≠ some 1)
    (last : List Char) (hl : isLine last = true) (v : Int) (hv : leadingInt last = some v)
    (hv01 : v = 0 ∨ v = 1) :
    ∃ u, '\n' ∉ u ∧ u.length ≤ last.length ∧
      ∀ (F : FloatLib) (fuel n : Nat), (∀ l ∈ bad, l.length < fuel) → bad.length < n →
        ∀ (book : BookRecord F) (rest : List Char),
          status_loop fuel n book (linesOf bad ++ (last ++ '\n' :: rest))
            = some ({ book with status_flag := v }, u ++ '\n' :: rest,
                List.replicate bad.length REPROMPT) := by
  obtain ⟨u, hu, hlen, hacc⟩ := status_attempt_accepted last hl v hv hv01
  refine ⟨u, hu, hlen, fun F fuel n hf hn book rest => ?_⟩
  induction bad generalizing n book with
  | nil =>
    obtain ⟨m, rfl⟩ : ∃ m, n = m + 1 := ⟨n - 1, by simp at hn; omega⟩
    simp only [linesOf, List.nil_append, status_loop, hacc F fuel book rest, List.length_nil,
      List.replicate_zero]
  | cons a bad ih =>
    obtain ⟨m, rfl⟩ : ∃ m, n = m + 1 := ⟨n - 1, by simp at hn; omega⟩
    have ha := hbad a (by simp)
    have h1 := status_attempt_rejected (F := F) a ha.1 ha.2.1 ha.2.2 fuel (hf a (by simp)) book
      (linesOf bad ++ (last ++ '\n' :: rest))
    have h2 := ih (fun b hb => hbad b (by simp [hb])) m (fun b hb => hf b (by simp [hb]))
      (by simp at hn; omega)
      ({ accession_number := book.accession_number, price := book.price,
         status_flag := (leadingInt a).getD book.status_flag,
         string_data := book.string_data } : BookRecord F)
    have e : linesOf (a :: bad) ++ (last ++ '\n' :: rest)
        = a ++ '\n' :: (linesOf bad ++ (last ++ '\n' :: rest)) := by
      simp [linesOf]
    rw [e]
    simp only [status_loop, h1, h2, List.length_cons, List.replicate_succ]

theorem linesOf_bounds (bad : List (List Char)) :
    (∀ l ∈ bad, l.length < (linesOf bad).length) ∧ bad.length ≤ (linesOf bad).length := by
  induction bad with
  | nil => simp [linesOf]
  | cons a bad ih =>
    constructor
    · intro b hb
      simp only [List.mem_cons] at hb
      rcases hb with rfl | hb
      · simp [linesOf]
      · have := ih.1 b hb
        simp [linesOf]
        omega
    · have := ih.2
      simp [linesOf]
      omega

theorem status_attempt_flag {F : FloatLib} (fuel : Nat) (book book1 : BookRecord F)
    (s s1 : Stream) (h : status_attempt fuel book s = some (true, book1, s1)) :
    book1.status_flag = 0 ∨ book1.status_flag = 1 := by
  simp only [status_attempt] at h
  split_ifs at h with hc
  · cases hd : drain fuel (scanf_d s).2 <;> simp [hd] at h
  · simp only [Option.some.injEq, Prod.mk.injEq, true_and] at h
    obtain ⟨hb, -⟩ := h
    subst hb
    simp only [not_or, not_and, Decidable.not_not] at hc
    exact Classical.or_iff_not_imp_left.mpr hc.2

theorem status_loop_flag {F : FloatLib} (fuel n : Nat) (book : BookRecord F) (s : Stream)
    (r : BookRecord F × Stream × List String) (h : status_loop fuel n book s = some r) :
    r.1.status_flag = 0 ∨ r.1.status_flag = 1 := by
  induction n generalizing book s r with
  | zero => simp [status_loop] at h
  | succ m ih =>
    unfold status_loop at h
    split at h
    · simp at h
    · rename_i b1 s1 ha
      simp only [Option.some.injEq] at h
      rw [← h]
      exact status_attempt_flag fuel book b1 s s1 ha
    · rename_i b1 s1 ha
      split at h
      · simp at h
      · rename_i b2 s2 out hl
        simp only [Option.some.injEq] at h
        rw [← h]
        exact ih b1 s1 (b2, s2, out) hl


/-! ## Reading a line into the shared buffer -/

theorem fgetsRead_length (k : Nat) (s : Stream) : (fgetsRead k s).1.length ≤ k := by
  induction k generalizing s with
  | zero => simp [fgetsRead]
  | succ k ih =>
    cases s with
    | nil => simp [fgetsRead]
    | cons c cs =>
      by_cases hc : c = '\n'
      · simp [fgetsRead, hc]
      · have := ih cs
        simp [fgetsRead, hc]
        omega

theorem fgetsRead_short (k : Nat) (l rest : List Char) (hnl : '\n' ∉ l) (hk : l.length < k) :
    fgetsRead k (l ++ '\n' :: rest) = (l ++ ['\n'], rest) := by
  induction l generalizing k with
  | nil =>
    obtain ⟨m, rfl⟩ : ∃ m, k = m + 1 := ⟨k - 1, by simp at hk; omega⟩
    simp [fgetsRead]
  | cons c cs ih =>
    obtain ⟨m, rfl⟩ : ∃ m, k = m + 1 := ⟨k - 1, by simp at hk; omega⟩
    simp only [List.mem_cons, not_or] at hnl
    have hc : c ≠ '\n' := fun e => hnl.1 e.symm
    simp only [List.length_cons, Nat.add_lt_add_iff_right] at hk
    simp [fgetsRead, hc, ih m hnl.2 hk]

theorem fgetsRead_long (k : Nat) (l r : List Char) (hnl : '\n' ∉ l) (hk : k ≤ l.length) :
    fgetsRead k (l ++ r) = (l.take k, l.drop k ++ r) := by
  induction l generalizing k with
  | nil =>
    obtain rfl : k = 0 := by simpa using hk
    simp [fgetsRead]
  | cons c cs ih =>
    cases k with
    | zero => simp [fgetsRead]
    | succ m =>
      simp only [List.mem_cons, not_or] at hnl
      have hc : c ≠ '\n' := fun e => hnl.1 e.symm
      simp only [List.length_cons, Nat.add_le_add_iff_right] at hk
      simp [fgetsRead, hc, ih m hnl.2 hk]

theorem read_text_stream (buf : List Char) (s : Stream) :
    (read_text buf s).2 = (fgetsRead (MAX_STR_LEN - 1) s).2 := by
  cases s <;> simp [read_text, fgets, fgetsRead, MAX_STR_LEN]

theorem takeWhile_stop (p : Char → Bool) (l r : List Char) (x : Char) (hx : p x = false) :
    (l ++ x :: r).takeWhile p = l.takeWhile p := by
  induction l with
  | nil => simp [List.takeWhile, hx]
  | cons c cs ih =>
    by_cases hc : p c = true
    · simp [List.takeWhile, hc, ih]
    · simp [List.takeWhile, hc]

theorem takeWhile_all (p : Char → Bool) (l : List Char) (h : ∀ c ∈ l, p c = true) :
    l.takeWhile p = l := by
  induction l with
  | nil => rfl
  | cons c cs ih =>
    simp [List.takeWhile, h c (by simp), ih (fun d hd => h d (by simp [hd]))]

theorem set_at_append (txt tl : List Char) (y z : Char) :
    (txt ++ y :: tl).set txt.length z = txt ++ z :: tl := by
  induction txt with
  | nil => rfl
  | cons c cs ih => simp [List.set, ih]

/-- A buffer that holds the text `txt`, its terminating NUL, and further bytes. -/
theorem terminated_buffer (txt tl : List Char)
    (htxt : ∀ c ∈ txt, (c != NUL && !(['\n'].contains c)) = true) :
    strcspn (txt ++ NUL :: tl) ['\n'] = txt.length ∧ cstr (txt ++ NUL :: tl) = txt := by
  constructor
  · unfold strcspn
    rw [takeWhile_stop _ txt tl NUL (by decide), takeWhile_all _ txt htxt]
  · unfold cstr
    rw [takeWhile_stop _ txt tl NUL (by decide), takeWhile_all _ txt]
    intro c hc
    have := htxt c hc
    simp only [Bool.and_eq_true] at this
    exact this.1

theorem takeWhile_sat (p : Char → Bool) (l : List Char) : ∀ c ∈ l.takeWhile p, p c = true := by
  induction l with
  | nil => simp
  | cons c cs ih =>
    by_cases hc : p c = true
    · intro d hd
      simp only [List.takeWhile, hc, List.mem_cons] at hd
      rcases hd with rfl | hd
      · exact hc
      · exact ih d hd
    · simp [List.takeWhile, hc]

/-- After `fgets` has read at least one byte and the trim has run, the buffer is the bytes
read up to their first newline or NUL, then a NUL written at the index `strcspn` found, then
further bytes; that index is at most the number of bytes read. -/
theorem read_text_shape (buf : List Char) (s : Stream) (hs : s ≠ []) :
    ∃ tl, (read_text buf s).1
        = (fgetsRead (MAX_STR_LEN - 1) s).1.takeWhile (fun c => c != NUL && !(['\n'].contains c))
            ++ NUL :: tl ∧
      strcspn (fgets buf MAX_STR_LEN s).1 ['\n']
        = ((fgetsRead (MAX_STR_LEN - 1) s).1.takeWhile
            (fun c => c != NUL && !(['\n'].contains c))).length ∧
      (read_text buf s).1.length = max buf.length ((fgetsRead (MAX_STR_LEN - 1) s).1.length + 1) := by
  obtain ⟨c, cs, rfl⟩ := List.exists_cons_of_ne_nil hs
  generalize hdata : (fgetsRead (MAX_STR_LEN - 1) (c :: cs)).1 = data
  have hf : (fgets buf MAX_STR_LEN (c :: cs)).1 = data ++ NUL :: buf.drop (data.length + 1) := by
    simp [fgets, poke, hdata]
  have hidx : strcspn (data ++ NUL :: buf.drop (data.length + 1)) ['\n']
      = (data.takeWhile (fun c => c != NUL && !(['\n'].contains c))).length := by
    unfold strcspn
    rw [takeWhile_stop _ data _ NUL (by decide)]
  have hsplit := List.takeWhile_append_dropWhile (fun c => c != NUL && !(['\n'].contains c)) data
  have hlen : (data ++ NUL :: buf.drop (data.length + 1)).length
      = max buf.length (data.length + 1) := by
    simp only [List.length_append, List.length_cons, List.length_drop]
    omega
  simp only [read_text, hf, hidx, List.length_set]
  cases hd : data.dropWhile (fun c => c != NUL && !(['\n'].contains c)) with
  | nil =>
    rw [hd, List.append_nil] at hsplit
    refine ⟨buf.drop (data.length + 1), ?_, trivial, hlen⟩
    rw [hsplit]
    exact set_at_append data _ NUL NUL
  | cons x xs =>
    rw [hd] at hsplit
    refine ⟨xs ++ NUL :: buf.drop (data.length + 1), ?_, trivial, hlen⟩
    have e : data ++ NUL :: buf.drop (data.length + 1)
        = data.takeWhile (fun c => c != NUL && !(['\n'].contains c))
            ++ x :: (xs ++ NUL :: buf.drop (data.length + 1)) :=
      calc data ++ NUL :: buf.drop (data.length + 1)
          = (data.takeWhile (fun c => c != NUL && !(['\n'].contains c)) ++ x :: xs)
              ++ NUL :: buf.drop (data.length + 1) := by rw [hsplit]
        _ = _ := by simp
    rw [e]
    exact set_at_append _ _ x NUL

theorem read_text_cstr (buf : List Char) (s : Stream) (hs : s ≠ []) :
    cstr (read_text buf s).1
      = (fgetsRead (MAX_STR_LEN - 1) s).1.takeWhile (fun c => c != NUL && !(['\n'].contains c)) := by
  obtain ⟨tl, he, -, -⟩ := read_text_shape buf s hs
  rw [he]
  exact (terminated_buffer _ tl (takeWhile_sat _ _)).2

/-- At end-of-file `fgets` reads nothing; on a terminated buffer the trim rewrites the NUL that
is already there. -/
theorem read_text_eof (txt tl : List Char)
    (htxt : ∀ c ∈ txt, (c != NUL && !(['\n'].contains c)) = true) :
    read_text (txt ++ NUL :: tl) [] = (txt ++ NUL :: tl, []) := by
  have h := (terminated_buffer txt tl htxt).1
  simp only [read_text, fgets, h]
  rw [set_at_append]

theorem text_of_line (l : List Char) (hnl : '\n' ∉ l) (h0 : NUL ∉ l) :
    ∀ c ∈ l, (c != NUL && !(['\n'].contains c)) = true := by
  intro c hc
  have h1 : c ≠ NUL := fun e => h0 (e ▸ hc)
  have h2 : c ≠ '\n' := fun e => hnl (e ▸ hc)
  simp [h1, h2]

/-- Reading a line of text: the buffer then holds its first 99 bytes. -/
theorem read_text_line (buf l rest : List Char) (hnl : '\n' ∉ l) (h0 : NUL ∉ l) :
    cstr (read_text buf (l ++ '\n' :: rest)).1 = l.take (MAX_STR_LEN - 1) := by
  rw [read_text_cstr buf _ (by simp)]
  by_cases hlen : l.length < MAX_STR_LEN - 1
  · rw [fgetsRead_short _ l rest hnl hlen]
    simp only
    rw [takeWhile_stop _ l [] '\n' (by decide), takeWhile_all _ l (text_of_line l hnl h0),
      List.take_of_length_le (by omega)]
  · rw [fgetsRead_long _ l ('\n' :: rest) hnl (by omega)]
    simp only
    exact takeWhile_all _ _ (fun c hc => text_of_line l hnl h0 c (List.mem_of_mem_take hc))

/-- The unread input after reading a line: past its newline when the line has at most 98
bytes, after its 99th byte otherwise. -/
theorem read_text_rest (buf l rest : List Char) (hnl : '\n' ∉ l) :
    (read_text buf (l ++ '\n' :: rest)).2
      = if l.length < MAX_STR_LEN - 1 then rest else l.drop (MAX_STR_LEN - 1) ++ '\n' :: rest := by
  rw [read_text_stream]
  by_cases hlen : l.length < MAX_STR_LEN - 1
  · rw [fgetsRead_short _ l rest hnl hlen, if_pos hlen]
  · rw [fgetsRead_long _ l ('\n' :: rest) hnl (by omega), if_neg hlen]


/-! ## Which fields the later steps touch -/

theorem input_price_frame {F : FloatLib} (book : BookRecord F) (s : Stream) :
    (input_price book s).1 = { book with price := (input_price book s).1.price } ∧
      ∀ x, input_price { book with string_data := x } s
        = ({ (input_price book s).1 with string_data := x }, (input_price book s).2) := by
  unfold input_price
  cases (F.scanf_lf s).1 <;> exact ⟨rfl, fun _ => rfl⟩

theorem status_attempt_frame {F : FloatLib} (fuel : Nat) (book b1 : BookRecord F) (s s1 : Stream)
    (ok : Bool) (h : status_attempt fuel book s = some (ok, b1, s1)) (b2 : BookRecord F)
    (hb : b2.status_flag = book.status_flag) :
    status_attempt fuel b2 s = some (ok, { b2 with status_flag := b1.status_flag }, s1) := by
  unfold status_attempt at h ⊢
  cases hsc : (scanf_d s).1 with
  | stored v =>
    simp only [hsc] at h ⊢
    split_ifs at h with hc
    · cases hd : drain fuel (scanf_d s).2 with
      | none => simp [hd] at h
      | some s2 =>
        simp only [hd, Option.some.injEq, Prod.mk.injEq] at h
        obtain ⟨rfl, rfl, rfl⟩ := h
        rw [if_pos hc]
    · simp only [Option.some.injEq, Prod.mk.injEq] at h
      obtain ⟨rfl, rfl, rfl⟩ := h
      rw [if_neg hc]
  | matchFail =>
    simp only [hsc, Scan.ret] at h ⊢
    cases hd : drain fuel (scanf_d s).2 with
    | none => simp [hd] at h
    | some s2 =>
      simp [hd] at h
      obtain ⟨rfl, rfl, rfl⟩ := h
      simp [← hb]
  | inputFail =>
    simp only [hsc, Scan.ret] at h ⊢
    cases hd : drain fuel (scanf_d s).2 with
    | none => simp [hd] at h
    | some s2 =>
      simp [hd] at h
      obtain ⟨rfl, rfl, rfl⟩ := h
      simp [← hb]

theorem status_loop_frame {F : FloatLib} (fuel n : Nat) (book b1 : BookRecord F) (s s1 : Stream)
    (out : List String) (h : status_loop fuel n book s = some (b1, s1, out)) (b2 : BookRecord F)
    (hb : b2.status_flag = book.status_flag) :
    status_loop fuel n b2 s = some ({ b2 with status_flag := b1.status_flag }, s1, out) := by
  induction n generalizing book s b2 out with
  | zero => simp [status_loop] at h
  | succ m ih =>
    unfold status_loop at h ⊢
    split at h
    · simp at h
    · rename_i b3 s3 ha
      simp only [Option.some.injEq, Prod.mk.injEq] at h
      obtain ⟨rfl, rfl, rfl⟩ := h
      rw [status_attempt_frame fuel book b3 s s3 true ha b2 hb]
    · rename_i b3 s3 ha
      rw [status_attempt_frame fuel book b3 s s3 false ha b2 hb]
      split at h
      · simp at h
      · rename_i b4 s4 out4 hl
        simp only [Option.some.injEq, Prod.mk.injEq] at h
        obtain ⟨rfl, rfl, rfl⟩ := h
        simp only
        rw [ih b3 s3 out4 hl { b2 with status_flag := b3.status_flag } rfl]

theorem status_loop_eof {F : FloatLib} (fuel n : Nat) (book : BookRecord F) :
    status_loop fuel n book [] = none := by
  cases n with
  | zero => rfl
  | succ m => simp [status_loop, status_attempt, scanf_d, skipSpace, Scan.ret, drain_eof]


/-! ## The collector, step by step -/

theorem input_texts_accession {F : FloatLib} (acc : Attempt) (hacc : acc.wellFormed) :
    ∃ u : List Char, u.length ≤ acc.line.length ∧
      ∀ (fuel : Nat) (book : BookRecord F) (s2 : Stream),
        input_texts fuel book (acc.line ++ '\n' :: s2)
          = if u.length < fuel then
              some ({ acc.storeAccession book with
                      string_data :=
                        (read_text (read_text book.string_data s2).1
                          (read_text book.string_data s2).2).1 },
                (read_text (read_text book.string_data s2).1 (read_text book.string_data s2).2).2)
            else none := by
  obtain ⟨u, he, hu, hlen⟩ := scanf_d_attempt acc hacc
  refine ⟨u, hlen, fun fuel book s2 => ?_⟩
  have hd := drain_line_eq fuel u s2 hu
  unfold input_texts
  rw [he s2]
  simp only [hd]
  by_cases hf : u.length < fuel
  · simp only [if_pos hf]
    cases acc <;> rfl
  · simp only [if_neg hf]

theorem input_book_details_of_texts {F : FloatLib} (fuel : Nat) (book b3 b5 : BookRecord F)
    (s s3 s5 s6 : Stream) (out : List String) (h3 : input_texts fuel book s = some (b3, s3))
    (h5 : status_loop fuel fuel (input_price b3 s3).1 (input_price b3 s3).2 = some (b5, s5, out))
    (h6 : drain fuel s5 = some s6) :
    input_book_details fuel book s = some { book := b5, stdin := s6, stdout := PROMPTS ++ out } := by
  simp only [input_book_details, h3, h5, h6]

theorem input_book_details_inv {F : FloatLib} (fuel : Nat) (book : BookRecord F) (s : Stream)
    (r : Collected F) (h : input_book_details fuel book s = some r) :
    ∃ b3 s3 s5 out, input_texts fuel book s = some (b3, s3) ∧
      status_loop fuel fuel (input_price b3 s3).1 (input_price b3 s3).2
        = some (r.book, s5, out) ∧
      drain fuel s5 = some r.stdin ∧ r.stdout = PROMPTS ++ out := by
  unfold input_book_details at h
  split at h
  · simp at h
  · rename_i b3 s3 h3
    split at h
    · simp at h
    · rename_i b5 s5 out h5
      split at h
      · simp at h
      · rename_i s6 h6
        simp only [Option.some.injEq] at h
        subst h
        exact ⟨b3, s3, s5, out, h3, h5, h6, rfl⟩

theorem display_of_view {F : FloatLib} (a b : BookRecord F) (h : a.view = b.view) :
    (display_book_details a).2 = (display_book_details b).2 := by
  simp only [BookRecord.view, Prod.mk.injEq] at h
  obtain ⟨h1, h2, h3, h4⟩ := h
  simp only [display_book_details, h1, h2, h3, h4]


/-! ## The claims -/

/-- C6: whenever `input_book_details` returns, whatever was typed for any field, the status flag
of the record it leaves is 0 or 1. -/
theorem status_flag_is_binary {F : FloatLib} (fuel : Nat) (book : BookRecord F) (s : Stream)
    (r : Collected F) (h : input_book_details fuel book s = some r) :
    r.book.status_flag = 0 ∨ r.book.status_flag = 1 := by
  obtain ⟨b3, s3, s5, out, -, h5, -, -⟩ := input_book_details_inv fuel book s r h
  exact status_loop_flag fuel fuel _ _ (r.book, s5, out) h5

theorem status_flag_is_binary_witness :
    input_book_details 10 garbage retryInput = some retryResult ∧
      (retryResult.book.status_flag = 0 ∨ retryResult.book.status_flag = 1) :=
  ⟨by rfl, status_flag_is_binary 10 garbage retryInput retryResult (by rfl)⟩

/-- C7 (the code at the failing input): on an empty standard input `main` never returns, however
many loop iterations it is allowed: `while (getchar() != '\n');` on line 60 reads `EOF` for ever.
Likewise the status loop, entered at end-of-file, never returns. -/
theorem main_hangs_at_end_of_input {F : FloatLib} (fuel : Nat) (book : BookRecord F) :
    main fuel book [] = none ∧ ∀ n, status_loop fuel n book [] = none := by
  refine ⟨?_, fun n => status_loop_eof fuel n book⟩
  simp [main, input_book_details, input_texts, scanf_d, skipSpace, drain_eof]

/-- C9: `display_book_details` leaves the record as it was, and a second call on the record it
leaves prints the same text as the first. -/
theorem display_is_repeatable {F : FloatLib} (book : BookRecord F) :
    (display_book_details book).1 = book ∧
      (display_book_details (display_book_details book).1).2 = (display_book_details book).2 :=
  ⟨rfl, rfl⟩

/-- C2 (counterexample): the rejected attempt `5` changes the record: `scanf` has written 5 into
`status_flag`, which held 9 before. -/
theorem rejected_integer_is_stored :
    garbage.status_flag = 9 ∧
      (status_attempt 2 garbage ['5', '\n']).map (fun q => (q.1, q.2.1.status_flag, q.2.2))
        = some (false, 5, []) := by
  decide

/-- C2 (amended): a rejected attempt, that is a line at whose start `scanf("%d")` reads no
integer or reads an `int` other than 0 and 1, leaves the accession number, the price and the
shared text buffer as they were. When no integer is read `status_flag` is as it was too; when
an integer is read it is the value of `status_flag` after the attempt. -/
theorem rejected_attempt_frame {F : FloatLib} (l : List Char) (hl : isLine l = true)
    (h0 : leadingInt l ≠ some 0) (h1 : leadingInt l ≠ some 1) (fuel : Nat)
    (hf : l.length < fuel) (book : BookRecord F) (rest : List Char) :
    status_attempt fuel book (l ++ '\n' :: rest)
      = some (false,
          { accession_number := book.accession_number, price := book.price,
            status_flag :=
              match leadingInt l with
              | some v => v
              | none => book.status_flag,
            string_data := book.string_data }, rest) := by
  rw [status_attempt_rejected l hl h0 h1 fuel hf book rest]
  cases leadingInt l <;> rfl

theorem rejected_attempt_frame_witness :
    (status_attempt 10 garbage ("abc".toList ++ '\n' :: "0\n".toList)
        = some (false,
            { accession_number := garbage.accession_number, price := garbage.price,
              status_flag :=
                match leadingInt "abc".toList with
                | some v => v
                | none => garbage.status_flag,
              string_data := garbage.string_data }, "0\n".toList) ∧
      leadingInt "abc".toList = none) ∧
    (status_attempt 10 garbage ("5abc".toList ++ '\n' :: "0\n".toList)
        = some (false,
            { accession_number := garbage.accession_number, price := garbage.price,
              status_flag :=
                match leadingInt "5abc".toList with
                | some v => v
                | none => garbage.status_flag,
              string_data := garbage.string_data }, "0\n".toList) ∧
      leadingInt "5abc".toList = some 5) ∧
    (status_attempt 10 garbage ("2.5".toList ++ '\n' :: "0\n".toList)
        = some (false,
            { accession_number := garbage.accession_number, price := garbage.price,
              status_flag :=
                match leadingInt "2.5".toList with
                | some v => v
                | none => garbage.status_flag,
              string_data := garbage.string_data }, "0\n".toList) ∧
      leadingInt "2.5".toList = some 2) :=
  ⟨⟨rejected_attempt_frame "abc".toList (by decide) (by decide) (by decide) 10 (by decide)
      garbage "0\n".toList, by decide⟩,
    ⟨rejected_attempt_frame "5abc".toList (by decide) (by decide) (by decide) 10 (by decide)
      garbage "0\n".toList, by decide⟩,
    ⟨rejected_attempt_frame "2.5".toList (by decide) (by decide) (by decide) 10 (by decide)
      garbage "0\n".toList, by decide⟩⟩

theorem read_text_bounds (buf : List Char) (s : Stream) (hbuf : buf.length = MAX_STR_LEN)
    (h : s ≠ [] ∨ ∃ txt tl, buf = txt ++ NUL :: tl ∧
      ∀ c ∈ txt, (c != NUL && !(['\n'].contains c)) = true) :
    ((cstr (read_text buf s).1).length ≤ MAX_STR_LEN - 1 ∧
      '\n' ∉ cstr (read_text buf s).1 ∧
      strcspn (fgets buf MAX_STR_LEN s).1 ['\n'] < MAX_STR_LEN ∧
      (read_text buf s).1.length = MAX_STR_LEN) ∧
    ∃ txt tl, (read_text buf s).1 = txt ++ NUL :: tl ∧
      ∀ c ∈ txt, (c != NUL && !(['\n'].contains c)) = true := by
  have key : ∀ (b txt tl : List Char) (i : Nat), b = txt ++ NUL :: tl →
      (∀ c ∈ txt, (c != NUL && !(['\n'].contains c)) = true) → b.length = MAX_STR_LEN →
      i = txt.length →
      (cstr b).length ≤ MAX_STR_LEN - 1 ∧ '\n' ∉ cstr b ∧ i < MAX_STR_LEN := by
    intro b txt tl i hb htxt hlen hi
    have hc := (terminated_buffer txt tl htxt).2
    rw [hb] at hlen ⊢
    rw [hc]
    simp only [List.length_append, List.length_cons] at hlen
    refine ⟨by omega, fun hm => ?_, by omega⟩
    have := htxt _ hm
    simp at this
  by_cases hs : s = []
  · subst hs
    rcases h with h | ⟨txt, tl, hb, htxt⟩
    · exact absurd rfl h
    · have hr := read_text_eof txt tl htxt
      rw [← hb] at hr
      have hi : strcspn (fgets buf MAX_STR_LEN []).1 ['\n'] = txt.length := by
        simp only [fgets, hb]
        exact (terminated_buffer txt tl htxt).1
      obtain ⟨k1, k2, k3⟩ := key buf txt tl _ hb htxt hbuf hi
      rw [hr]
      exact ⟨⟨k1, k2, k3, hbuf⟩, txt, tl, hb, htxt⟩
  · obtain ⟨tl, he, hi, hlen⟩ := read_text_shape buf s hs
    have hdata := fgetsRead_length (MAX_STR_LEN - 1) s
    have hlen' : (read_text buf s).1.length = MAX_STR_LEN := by
      rw [hlen, hbuf]
      simp only [MAX_STR_LEN] at hdata ⊢
      omega
    obtain ⟨k1, k2, k3⟩ := key _ _ tl _ he (takeWhile_sat _ _) hlen' hi
    exact ⟨⟨k1, k2, k3, hlen'⟩, _, tl, he, takeWhile_sat _ _⟩

/-- C8: with a title line to read (the input is not at end-of-file) and a 100-byte buffer, after
the title's read-and-trim and again after the author's, whatever the lengths of the lines, the
text in the shared buffer has at most 99 bytes and no newline, the index the trim writes to is
below 100, and the buffer still has 100 bytes. -/
theorem text_stays_within_buffer (buf : List Char) (s : Stream)
    (hbuf : buf.length = MAX_STR_LEN) (hs : s ≠ []) :
    ((cstr (read_text buf s).1).length ≤ MAX_STR_LEN - 1 ∧
      '\n' ∉ cstr (read_text buf s).1 ∧
      strcspn (fgets buf MAX_STR_LEN s).1 ['\n'] < MAX_STR_LEN ∧
      (read_text buf s).1.length = MAX_STR_LEN) ∧
    ((cstr (read_text (read_text buf s).1 (read_text buf s).2).1).length ≤ MAX_STR_LEN - 1 ∧
      '\n' ∉ cstr (read_text (read_text buf s).1 (read_text buf s).2).1 ∧
      strcspn (fgets (read_text buf s).1 MAX_STR_LEN (read_text buf s).2).1 ['\n'] < MAX_STR_LEN ∧
      (read_text (read_text buf s).1 (read_text buf s).2).1.length = MAX_STR_LEN) := by
  obtain ⟨h1, hshape⟩ := read_text_bounds buf s hbuf (Or.inl hs)
  exact ⟨h1, (read_text_bounds _ (read_text buf s).2 h1.2.2.2 (Or.inr hshape)).1⟩

theorem text_stays_within_buffer_witness :
    ((cstr (read_text (List.replicate 100 'x') (List.replicate 150 'a' ++ ['\n', 'b'])).1).length
        ≤ MAX_STR_LEN - 1 ∧
      '\n' ∉ cstr (read_text (List.replicate 100 'x') (List.replicate 150 'a' ++ ['\n', 'b'])).1 ∧
      strcspn (fgets (List.replicate 100 'x') MAX_STR_LEN
        (List.replicate 150 'a' ++ ['\n', 'b'])).1 ['\n'] < MAX_STR_LEN ∧
      (read_text (List.replicate 100 'x') (List.replicate 150 'a' ++ ['\n', 'b'])).1.length
        = MAX_STR_LEN) ∧
    ((cstr (read_text (read_text (List.replicate 100 'x')
          (List.replicate 150 'a' ++ ['\n', 'b'])).1
        (read_text (List.replicate 100 'x') (List.replicate 150 'a' ++ ['\n', 'b'])).2).1).length
        ≤ MAX_STR_LEN - 1 ∧
      '\n' ∉ cstr (read_text (read_text (List.replicate 100 'x')
          (List.replicate 150 'a' ++ ['\n', 'b'])).1
        (read_text (List.replicate 100 'x') (List.replicate 150 'a' ++ ['\n', 'b'])).2).1 ∧
      strcspn (fgets (read_text (List.replicate 100 'x')
          (List.replicate 150 'a' ++ ['\n', 'b'])).1 MAX_STR_LEN
        (read_text (List.replicate 100 'x') (List.replicate 150 'a' ++ ['\n', 'b'])).2).1 ['\n']
        < MAX_STR_LEN ∧
      (read_text (read_text (List.replicate 100 'x') (List.replicate 150 'a' ++ ['\n', 'b'])).1
        (read_text (List.replicate 100 'x') (List.replicate 150 'a' ++ ['\n', 'b'])).2).1.length
        = MAX_STR_LEN) :=
  text_stays_within_buffer (List.replicate 100 'x') (List.replicate 150 'a' ++ ['\n', 'b'])
    (by decide) (by decide)

theorem input_book_details_lines {F : FloatLib} (fuel : Nat) (book b3 : BookRecord F)
    (s s3 ws rest : Stream) (bad : List (List Char)) (last : List Char) (v : Int)
    (hbad : ∀ l ∈ bad, isLine l = true ∧ leadingInt l ≠ some 0 ∧ leadingInt l ≠ some 1)
    (hl : isLine last = true) (hv : leadingInt last = some v) (hv01 : v = 0 ∨ v = 1)
    (h3 : input_texts fuel book s = some (b3, s3)) (hws : ∀ c ∈ ws, isspace c = true)
    (h4 : (input_price b3 s3).2 = ws ++ (linesOf bad ++ (last ++ '\n' :: rest)))
    (hfuel : (linesOf bad).length + last.length < fuel) :
    input_book_details fuel book s
      = some { book := { (input_price b3 s3).1 with status_flag := v }, stdin := rest,
               stdout := PROMPTS ++ List.replicate bad.length REPROMPT } := by
  have hb := linesOf_bounds bad
  obtain ⟨u, hu, hlen, hloop⟩ := status_loop_lines bad hbad last hl v hv hv01
  have h5 := hloop F fuel fuel (fun a ha => by have := hb.1 a ha; omega)
    (by have := hb.2; omega) (input_price b3 s3).1 rest
  rw [← status_loop_skips fuel fuel _ ws _ hws, ← h4] at h5
  exact input_book_details_of_texts fuel book b3 _ s s3 _ rest _ h3 h5
    (drain_line fuel u rest hu (by omega))

/-- C1 (counterexample): an earlier attempt that the claim counts as invalid stops the loop.
The token `1abc` is accepted as 1: the flag is 1, no re-prompt is printed and the line `0` is
never read. The integer 4294967296 is accepted as 0 and the line `1` is never read. -/
theorem leading_integer_is_accepted :
    (input_book_details 20 garbage
        "101\nIntro to Systems\nJ. Doe\n499.50\n1abc\n0\n".toList).map
      (fun r => (r.book.status_flag, r.stdin, r.stdout)) = some (1, "0\n".toList, PROMPTS) ∧
    (input_book_details 20 garbage
        "101\nIntro to Systems\nJ. Doe\n499.50\n4294967296\n1\n".toList).map
      (fun r => (r.book.status_flag, r.stdin, r.stdout)) = some (0, "1\n".toList, PROMPTS) :=
  ⟨by rfl, by rfl⟩

/-- C1 (amended): when the input at the status prompt is (after the white space the price read
left) a sequence of non-blank lines, the earlier ones rejected and the last one accepted,
`input_book_details` returns with the value read from the last line in `status_flag`, having
read every line of the sequence: the loop did not stop at an earlier attempt. A line is accepted
when the integer `scanf("%d")` reads at its start, converted to `int`, is 0 or 1, and rejected
when no integer is read there or the `int` read is another value; what follows the integer on
its line plays no part. -/
theorem status_flag_is_last_attempt {F : FloatLib} (fuel : Nat) (book b3 : BookRecord F)
    (s s3 ws rest : Stream) (bad : List (List Char)) (last : List Char) (v : Int)
    (hbad : ∀ l ∈ bad, isLine l = true ∧ leadingInt l ≠ some 0 ∧ leadingInt l ≠ some 1)
    (hl : isLine last = true) (hv : leadingInt last = some v) (hv01 : v = 0 ∨ v = 1)
    (h3 : input_texts fuel book s = some (b3, s3)) (hws : ∀ c ∈ ws, isspace c = true)
    (h4 : (input_price b3 s3).2 = ws ++ (linesOf bad ++ (last ++ '\n' :: rest)))
    (hfuel : (linesOf bad).length + last.length < fuel) :
    (input_book_details fuel book s).map (fun r => (r.book.status_flag, r.stdin))
      = some (v, rest) := by
  rw [input_book_details_lines fuel book b3 s s3 ws rest bad last v hbad hl hv hv01 h3 hws h4
    hfuel]
  rfl

theorem status_flag_is_last_attempt_witness :
    (input_book_details 30 garbage
        ("101\nIntro to Systems\nJ. Doe\n499.50\n-3\nyes\n7 1\n2.5\n +1 \nleft over".toList)).map
      (fun r => (r.book.status_flag, r.stdin)) = some (1, "left over".toList) :=
  status_flag_is_last_attempt 30 garbage
    { accession_number := 101, price := garbage.price, status_flag := 9,
      string_data := "J. Doe".toList ++ [NUL, NUL] ++ " Systems".toList ++ [NUL, NUL]
        ++ List.replicate 82 'x' }
    _ "499.50\n-3\nyes\n7 1\n2.5\n +1 \nleft over".toList ['\n'] "left over".toList
    ["-3".toList, "yes".toList, "7 1".toList, "2.5".toList] " +1 ".toList 1
    (by decide) (by decide) (by decide) (by decide) (by rfl) (by decide) (by rfl) (by decide)

/-- C5 (counterexample): the entry `1.5`, not one of the two valid values, gets no re-prompt:
it is accepted as 1, nothing but the six prompts is printed, and the valid line `0` after it is
never read. -/
theorem non_integer_entry_gets_no_reprompt :
    (input_book_details 20 garbage
        "101\nIntro to Systems\nJ. Doe\n499.50\n1.5\n0\n".toList).map
      (fun r => (r.stdout.count "Invalid status flag. Please enter 1 (Issued) or 0 (Available): ",
        r.stdout, r.book.status_flag, r.stdin))
      = some (0, PROMPTS, 1, "0\n".toList) := by
  rfl

/-- C5 (amended): with attempts classed as the loop's test classes them (accepted when the
integer `scanf("%d")` reads at the start of the line, converted to `int`, is 0 or 1; rejected
otherwise), the text `Invalid status flag. Please enter 1 (Issued) or 0 (Available): ` is
printed once for each attempt before the first accepted one and not otherwise, the accepted
value is stored, and each rejected attempt's line is taken from the input up to and including its
newline, so that the next read starts on the next line. -/
theorem one_reprompt_per_rejected_attempt {F : FloatLib} (fuel : Nat) (book b3 : BookRecord F)
    (s s3 ws rest : Stream) (bad : List (List Char)) (last : List Char) (v : Int)
    (hbad : ∀ l ∈ bad, isLine l = true ∧ leadingInt l ≠ some 0 ∧ leadingInt l ≠ some 1)
    (hl : isLine last = true) (hv : leadingInt last = some v) (hv01 : v = 0 ∨ v = 1)
    (h3 : input_texts fuel book s = some (b3, s3)) (hws : ∀ c ∈ ws, isspace c = true)
    (h4 : (input_price b3 s3).2 = ws ++ (linesOf bad ++ (last ++ '\n' :: rest)))
    (hfuel : (linesOf bad).length + last.length < fuel) :
    (input_book_details fuel book s).map (fun r => (r.stdout, r.book.status_flag))
        = some (PROMPTS ++ List.replicate bad.length
            "Invalid status flag. Please enter 1 (Issued) or 0 (Available): ", v) ∧
      (input_book_details fuel book s).map (fun r =>
          r.stdout.count "Invalid status flag. Please enter 1 (Issued) or 0 (Available): ")
        = some bad.length ∧
      ∀ l ∈ bad, ∀ (b : BookRecord F) (tail : Stream),
        (status_attempt fuel b (l ++ '\n' :: tail)).map (fun q => (q.1, q.2.2))
          = some (false, tail) := by
  have hrun := input_book_details_lines fuel book b3 s s3 ws rest bad last v hbad hl hv hv01 h3
    hws h4 hfuel
  refine ⟨?_, ?_, fun l hl2 b tail => ?_⟩
  · rw [hrun]
    rfl
  · rw [hrun]
    simp only [Option.map_some', Option.some.injEq]
    have e : ("Invalid status flag. Please enter 1 (Issued) or 0 (Available): " : String)
        = REPROMPT := rfl
    rw [e, List.count_append, List.count_replicate_self]
    have : PROMPTS.count REPROMPT = 0 := by decide
    omega
  · have hb := linesOf_bounds bad
    rw [status_attempt_rejected l (hbad l hl2).1 (hbad l hl2).2.1 (hbad l hl2).2.2 fuel
      (by have := hb.1 l hl2; omega)]
    rfl

theorem one_reprompt_per_rejected_attempt_witness :
    (input_book_details 10 garbage retryInput).map (fun r => (r.stdout, r.book.status_flag))
        = some (PROMPTS ++ List.replicate 2
            "Invalid status flag. Please enter 1 (Issued) or 0 (Available): ", 0) ∧
      (input_book_details 10 garbage retryInput).map (fun r =>
          r.stdout.count "Invalid status flag. Please enter 1 (Issued) or 0 (Available): ")
        = some 2 ∧
      ∀ l ∈ ["5".toList, "abc".toList],
        ∀ (b : BookRecord Binary64) (tail : Stream),
          (status_attempt 10 b (l ++ '\n' :: tail)).map (fun q => (q.1, q.2.2))
            = some (false, tail) :=
  one_reprompt_per_rejected_attempt 10 garbage
    { accession_number := 101, price := garbage.price, status_flag := 9,
      string_data := "J. Doe".toList ++ [NUL, NUL] ++ " Systems".toList ++ [NUL, NUL]
        ++ List.replicate 82 'x' }
    retryInput "499.50\n5\nabc\n0\n".toList ['\n'] []
    ["5".toList, "abc".toList] "0".toList 0 (by decide) (by decide) (by decide) (by decide)
    (by rfl) (by decide) (by rfl) (by decide)

theorem status_loop_only_flag {F : FloatLib} (fuel n : Nat) (book b1 : BookRecord F)
    (s s1 : Stream) (out : List String) (h : status_loop fuel n book s = some (b1, s1, out)) :
    b1 = { book with status_flag := b1.status_flag } := by
  have h2 := status_loop_frame fuel n book b1 s s1 out h book rfl
  rw [h] at h2
  simp only [Option.some.injEq, Prod.mk.injEq, and_true] at h2
  exact h2

theorem collected_fields {F : FloatLib} (fuel : Nat) (book : BookRecord F) (s : Stream)
    (r : Collected F) (h : input_book_details fuel book s = some r) :
    ∃ b3 s3, input_texts fuel book s = some (b3, s3) ∧
      r.book.string_data = b3.string_data ∧ r.book.accession_number = b3.accession_number := by
  obtain ⟨b3, s3, s5, out, h3, h5, -, -⟩ := input_book_details_inv fuel book s r h
  have e := status_loop_only_flag fuel fuel _ _ _ _ _ h5
  have e2 := (input_price_frame b3 s3).1
  refine ⟨b3, s3, h3, ?_, ?_⟩
  · rw [e]
    simp only
    rw [e2]
  · rw [e]
    simp only
    rw [e2]

theorem status_loop_fields {F : FloatLib} (fuel n : Nat) (book b1 : BookRecord F)
    (s s1 : Stream) (out : List String) (h : status_loop fuel n book s = some (b1, s1, out)) :
    b1.accession_number = book.accession_number ∧ b1.price = book.price ∧
      b1.string_data = book.string_data := by
  have e := status_loop_only_flag fuel n book b1 s s1 out h
  refine ⟨?_, ?_, ?_⟩ <;> (rw [e])

theorem input_price_fields {F : FloatLib} (book : BookRecord F) (s : Stream) :
    (input_price book s).1.accession_number = book.accession_number ∧
      (input_price book s).1.status_flag = book.status_flag ∧
      (input_price book s).1.string_data = book.string_data := by
  unfold input_price
  cases (F.scanf_lf s).1 <;> exact ⟨rfl, rfl, rfl⟩

theorem input_price_text {F : FloatLib} (a f : Int) (p : F.Double) (x y : List Char)
    (s : Stream) :
    (input_price ({ accession_number := a, price := p, status_flag := f, string_data := x }
        : BookRecord F) s).2
      = (input_price ({ accession_number := a, price := p, status_flag := f, string_data := y }
        : BookRecord F) s).2 ∧
    (input_price ({ accession_number := a, price := p, status_flag := f, string_data := x }
        : BookRecord F) s).1.price
      = (input_price ({ accession_number := a, price := p, status_flag := f, string_data := y }
        : BookRecord F) s).1.price := by
  unfold input_price
  cases (F.scanf_lf s).1 <;> exact ⟨rfl, rfl⟩

theorem input_texts_lines {F : FloatLib} (acc : Attempt) (hacc : acc.wellFormed) :
    ∃ u : List Char, u.length ≤ acc.line.length ∧
      ∀ (fuel : Nat) (book : BookRecord F) (title author rest : List Char),
        '\n' ∉ title → title.length < MAX_STR_LEN - 1 → '\n' ∉ author →
        ∃ X, (NUL ∉ author → cstr X = author.take (MAX_STR_LEN - 1)) ∧
          input_texts fuel book (acc.line ++ '\n' :: (title ++ '\n' :: (author ++ '\n' :: rest)))
            = if u.length < fuel then
                some ({ accession_number := (acc.storeAccession book).accession_number,
                        price := book.price, status_flag := book.status_flag,
                        string_data := X },
                  if author.length < MAX_STR_LEN - 1 then rest
                  else author.drop (MAX_STR_LEN - 1) ++ '\n' :: rest)
              else none := by
  obtain ⟨u, hul, hT⟩ := input_texts_accession (F := F) acc hacc
  refine ⟨u, hul, fun fuel book title author rest ht htl ha => ?_⟩
  have e := read_text_rest book.string_data title (author ++ '\n' :: rest) ht
  rw [if_pos htl] at e
  refine ⟨(read_text (read_text book.string_data (title ++ '\n' :: (author ++ '\n' :: rest))).1
    (author ++ '\n' :: rest)).1, fun ha0 => read_text_line _ author rest ha ha0, ?_⟩
  rw [hT, e, read_text_rest _ author rest ha]
  cases acc <;> rfl

/-- C3: take a session whose title line has at most 98 bytes and on which `input_book_details`
returns. The text in the shared buffer is then the author line (its first 99 bytes), and the
same session with any other title of at most 98 bytes returns too, with the same field values,
the same unread input, the same prompts and the same `display_book_details` output. -/
theorem author_overwrites_title {F : FloatLib} (fuel : Nat) (book : BookRecord F) (acc : Attempt)
    (title1 title2 author rest : List Char) (r1 : Collected F) (hacc : acc.wellFormed)
    (h1n : '\n' ∉ title1) (h1 : title1.length ≤ 98) (h2n : '\n' ∉ title2)
    (h2 : title2.length ≤ 98) (han : '\n' ∉ author) (ha0 : NUL ∉ author)
    (hret : input_book_details fuel book
      (acc.line ++ '\n' :: (title1 ++ '\n' :: (author ++ '\n' :: rest))) = some r1) :
    cstr r1.book.string_data = author.take (MAX_STR_LEN - 1) ∧
      (input_book_details fuel book
          (acc.line ++ '\n' :: (title2 ++ '\n' :: (author ++ '\n' :: rest)))).map
        (fun r => (r.book.view, r.stdin, r.stdout, (display_book_details r.book).2))
        = some (r1.book.view, r1.stdin, r1.stdout, (display_book_details r1.book).2) := by
  obtain ⟨u, -, hT⟩ := input_texts_lines (F := F) acc hacc
  obtain ⟨X1, hX1, e1⟩ := hT fuel book title1 author rest h1n
    (by simp only [MAX_STR_LEN]; omega) han
  obtain ⟨X2, hX2, e2⟩ := hT fuel book title2 author rest h2n
    (by simp only [MAX_STR_LEN]; omega) han
  obtain ⟨b3, s3, s5, out, h3, h5, h6, hout⟩ := input_book_details_inv _ _ _ _ hret
  by_cases hf : u.length < fuel
  swap
  · rw [e1, if_neg hf] at h3
    simp at h3
  rw [if_pos hf] at e1 e2
  generalize (if author.length < MAX_STR_LEN - 1 then rest
    else author.drop (MAX_STR_LEN - 1) ++ '\n' :: rest) = S at e1 e2
  generalize (acc.storeAccession book).accession_number = a at e1 e2
  rw [e1] at h3
  simp only [Option.some.injEq, Prod.mk.injEq] at h3
  obtain ⟨rfl, rfl⟩ := h3
  obtain ⟨hs, hpr⟩ := input_price_text (F := F) a book.status_flag book.price X2 X1 S
  obtain ⟨f1a, f1f, f1s⟩ := input_price_fields
    ({ accession_number := a, price := book.price, status_flag := book.status_flag,
       string_data := X1 } : BookRecord F) S
  obtain ⟨f2a, f2f, f2s⟩ := input_price_fields
    ({ accession_number := a, price := book.price, status_flag := book.status_flag,
       string_data := X2 } : BookRecord F) S
  obtain ⟨g1, g2, g3⟩ := status_loop_fields fuel fuel _ _ _ _ _ h5
  generalize hP2 : (input_price
    ({ accession_number := a, price := book.price, status_flag := book.status_flag,
       string_data := X2 } : BookRecord F) S).1 = P2 at hs hpr f2a f2f f2s
  have h5' := status_loop_frame fuel fuel _ _ _ _ _ h5 P2 (by rw [f1f, f2f])
  rw [← hs, ← hP2] at h5'
  have hrun2 := input_book_details_of_texts fuel book _ _ _ _ _ _ _ e2 h5' h6
  rw [hP2] at hrun2
  have hsd : r1.book.string_data = X1 := by rw [g3, f1s]
  refine ⟨by rw [hsd]; exact hX1 ha0, ?_⟩
  rw [hrun2]
  have hview : BookRecord.view ({ P2 with status_flag := r1.book.status_flag } : BookRecord F)
      = r1.book.view := by
    simp only [BookRecord.view, Prod.mk.injEq]
    refine ⟨?_, ?_, trivial, ?_⟩
    · rw [f2a, g1, f1a]
    · rw [hpr, g2]
    · rw [f2s, hsd, hX1 ha0, hX2 ha0]
  simp only [Option.map_some', Option.some.injEq, Prod.mk.injEq]
  exact ⟨hview, trivial, hout.symm, display_of_view _ _ hview⟩


theorem author_overwrites_title_witness :
    input_book_details 10 garbage ((Attempt.int 101 []).line ++ '\n' ::
        ("Foo".toList ++ '\n' :: ("Bar".toList ++ '\n' :: "499.50\n1\n".toList)))
      = some fooBarResult ∧
    (cstr fooBarResult.book.string_data = "Bar".toList.take (MAX_STR_LEN - 1) ∧
      (input_book_details 10 garbage ((Attempt.int 101 []).line ++ '\n' ::
          ("Intro to Systems".toList ++ '\n' :: ("Bar".toList ++ '\n' :: "499.50\n1\n".toList)))).map
        (fun r => (r.book.view, r.stdin, r.stdout, (display_book_details r.book).2))
        = some (fooBarResult.book.view, fooBarResult.stdin, fooBarResult.stdout,
            (display_book_details fooBarResult.book).2)) ∧
    (display_book_details fooBarResult.book).2
      = ["\n============================================\n",
          "            BOOK RECORD DETAILS             \n",
          "============================================\n",
          "Accession Number: **101**\n",
          "Price: **₹499.50**\n",
          "Status: **Issued** (1)\n",
          "\n-- String Data (Last data written is valid) --\n",
          "Author (Last Written Data): **Bar**\n",
          "============================================\n"] :=
  ⟨by rfl,
    author_overwrites_title 10 garbage (.int 101 []) "Foo".toList "Intro to Systems".toList
      "Bar".toList "499.50\n1\n".toList fooBarResult (by decide) (by decide) (by decide)
      (by decide) (by decide) (by decide) (by decide) (by rfl),
    by rfl⟩

/-- C4 (counterexample): the price 99999999999999.99 has two decimals and is echoed as
99999999999999.98: the nearest `double` is 99999999999999.984375. And a title of 99 bytes is
shorter than the buffer, yet after it the text field shown is empty, not the author `J. Doe`:
the author read took the newline the title read had left. -/
theorem large_price_is_not_echoed :
    main 4 garbage "101\nIntro to Systems\nJ. Doe\n99999999999999.99\n1\n".toList
      = some (0,
          ["--- Digital Library Book Management System ---\n",
            "\nEnter Book Details:\n",
            "1. Enter Accession Number (integer): ",
            "2. Enter Title: ",
            "3. Enter Author: ",
            "4. Enter Price (e.g., 499.50): ₹",
            "5. Enter Status Flag (1 for Issued, 0 for Available): ",
            "\n============================================\n",
            "            BOOK RECORD DETAILS             \n",
            "============================================\n",
            "Accession Number: **101**\n",
            "Price: **₹99999999999999.98**\n",
            "Status: **Issued** (1)\n",
            "\n-- String Data (Last data written is valid) --\n",
            "Author (Last Written Data): **J. Doe**\n",
            "============================================\n"]) ∧
    (main 8 garbage
        ("101".toList ++ '\n' :: (List.replicate 99 'a'
          ++ "\nJ. Doe\n499.50\n1\n".toList))).map (fun r => r.2.drop 16)
      = some ["Author (Last Written Data): ****\n",
          "============================================\n"] :=
  ⟨by rfl, by rfl⟩

/-- C4 (amended): on a session made of an accession number `n` of type `int`, a title of at
most 98 bytes, an author of at most 99 bytes, a price written as a natural number `k` below
`2 ^ 46` followed by a point and two decimals, with or without a minus sign before it, and a
status `s` that is 0 or 1, each on its own line, `main` returns 0 and prints the banner, the
six prompts, and the record: accession number `n`, the price as it was typed, the status as
`Issued` or `Available` with the number `s`, and the author as the text field, in this order. -/
theorem session_is_echoed (fuel : Nat) (book : BookRecord Binary64) (n s : Int) (neg : Bool)
    (k : Nat) (d1 d2 : Char) (title author rest : List Char)
    (hfuel : (showInt n).length < fuel) (hn1 : INT_MIN ≤ n) (hn2 : n ≤ INT_MAX)
    (ht : '\n' ∉ title) (htl : title.length ≤ 98) (ha : '\n' ∉ author) (ha0 : NUL ∉ author)
    (hal : author.length ≤ 99) (hk : k < 2 ^ 46) (hd1 : isdigit d1 = true)
    (hd2 : isdigit d2 = true) (hs : s = 0 ∨ s = 1) :
    main fuel book
        (showInt n ++ '\n' :: (title ++ '\n' :: (author ++ '\n' ::
          (((if neg then ['-'] else []) ++ showNat k ++ ['.', d1, d2])
            ++ '\n' :: (showInt s ++ '\n' :: rest)))))
      = some (0,
          ["--- Digital Library Book Management System ---\n",
            "\nEnter Book Details:\n",
            "1. Enter Accession Number (integer): ",
            "2. Enter Title: ",
            "3. Enter Author: ",
            "4. Enter Price (e.g., 499.50): ₹",
            "5. Enter Status Flag (1 for Issued, 0 for Available): ",
            "\n============================================\n",
            "            BOOK RECORD DETAILS             \n",
            "============================================\n",
            "Accession Number: **" ++ String.mk (showInt n) ++ "**\n",
            "Price: **₹"
              ++ String.mk ((if neg then ['-'] else []) ++ showNat k ++ ['.', d1, d2])
              ++ "**\n",
            "Status: **" ++ (if s = 1 then "Issued" else "Available") ++ "** ("
              ++ String.mk (showInt s) ++ ")\n",
            "\n-- String Data (Last data written is valid) --\n",
            "Author (Last Written Data): **" ++ String.mk author ++ "**\n",
            "============================================\n"]) := by
  generalize hp : (if neg then ['-'] else []) ++ showNat k ++ ['.', d1, d2] = p
  obtain ⟨u, hul, hT⟩ := input_texts_lines (F := Binary64) (.int n []) ⟨hn1, hn2, rfl⟩
  obtain ⟨X, hX, e⟩ := hT fuel book title author (p ++ '\n' :: (showInt s ++ '\n' :: rest)) ht
    (by simp only [MAX_STR_LEN]; omega) ha
  simp only [Attempt.line, Attempt.storeAccession, List.append_nil] at hul e
  rw [if_pos (lt_of_le_of_lt hul hfuel)] at e
  obtain ⟨v, hscan, hprint⟩ := price_echo neg k d1 d2 (showInt s ++ '\n' :: rest) hk hd1 hd2
  rw [hp] at hscan hprint
  -- the unread input at the price prompt: the price line, after the author's newline when the
  -- author filled the buffer
  obtain ⟨lead, hlead, hS⟩ : ∃ lead : List Char, (∀ c ∈ lead, isspace c = true) ∧
      (if author.length < MAX_STR_LEN - 1 then p ++ '\n' :: (showInt s ++ '\n' :: rest)
        else author.drop (MAX_STR_LEN - 1) ++ '\n' :: (p ++ '\n' :: (showInt s ++ '\n' :: rest)))
        = lead ++ (p ++ '\n' :: (showInt s ++ '\n' :: rest)) := by
    by_cases hlt : author.length < MAX_STR_LEN - 1
    · exact ⟨[], by simp, by rw [if_pos hlt]; rfl⟩
    · refine ⟨['\n'], by decide, ?_⟩
      rw [if_neg hlt, List.drop_of_length_le (by simp only [MAX_STR_LEN]; omega)]
      rfl
  rw [hS] at e
  have hprice : input_price
      ({ accession_number := n, price := book.price, status_flag := book.status_flag,
         string_data := X } : BookRecord Binary64)
      (lead ++ (p ++ '\n' :: (showInt s ++ '\n' :: rest)))
      = ({ accession_number := n, price := v, status_flag := book.status_flag,
           string_data := X }, '\n' :: (showInt s ++ '\n' :: rest)) := by
    have h : Binary64.scanf_lf (lead ++ (p ++ '\n' :: (showInt s ++ '\n' :: rest)))
        = (.stored v, '\n' :: (showInt s ++ '\n' :: rest)) := by
      show binary64_scanf_lf _ = _
      rw [scanf_lf_skips lead _ hlead]
      exact hscan
    simp only [input_price, h]
  have hline : isLine (showInt s) = true ∧ leadingInt (showInt s) = some s := by
    rcases hs with rfl | rfl <;> exact ⟨by decide, by decide⟩
  have hlen : (showInt s).length = 1 := by
    rcases hs with rfl | rfl <;> rfl
  have hpos : 0 < (showInt n).length := by
    cases n with
    | ofNat m =>
      obtain ⟨d, ds, he, -, -⟩ := showNat_spec m
      simp [showInt, he]
    | negSucc m => simp [showInt]
  have hrun := input_book_details_lines fuel book _ _ _ ['\n'] rest [] (showInt s) s
    (by simp) hline.1 hline.2 hs e (by decide) (by rw [hprice]; simp [linesOf])
    (by simp only [linesOf, List.length_nil, hlen]; omega)
  have hX' : cstr X = author := by
    rw [hX ha0, List.take_of_length_le (by simp only [MAX_STR_LEN]; omega)]
  have hfmt : Binary64.printf_2lf v = String.mk p := hprint
  simp only [main, hrun, hprice, display_book_details, hfmt, hX', PROMPTS,
    List.length_nil, List.replicate_zero, List.append_nil, List.singleton_append,
    List.cons_append, List.nil_append]

theorem session_is_echoed_witness :
    main 4 garbage sessionInput
      = some (0,
          ["--- Digital Library Book Management System ---\n",
            "\nEnter Book Details:\n",
            "1. Enter Accession Number (integer): ",
            "2. Enter Title: ",
            "3. Enter Author: ",
            "4. Enter Price (e.g., 499.50): ₹",
            "5. Enter Status Flag (1 for Issued, 0 for Available): ",
            "\n============================================\n",
            "            BOOK RECORD DETAILS             \n",
            "============================================\n",
            "Accession Number: **101**\n",
            "Price: **₹499.50**\n",
            "Status: **Issued** (1)\n",
            "\n-- String Data (Last data written is valid) --\n",
            "Author (Last Written Data): **J. Doe**\n",
            "============================================\n"]) ∧
    main 3 garbage "7\n\nA\n-70368744177663.99\n0\nunread".toList
      = some (0,
          ["--- Digital Library Book Management System ---\n",
            "\nEnter Book Details:\n",
            "1. Enter Accession Number (integer): ",
            "2. Enter Title: ",
            "3. Enter Author: ",
            "4. Enter Price (e.g., 499.50): ₹",
            "5. Enter Status Flag (1 for Issued, 0 for Available): ",
            "\n============================================\n",
            "            BOOK RECORD DETAILS             \n",
            "============================================\n",
            "Accession Number: **7**\n",
            "Price: **₹-70368744177663.99**\n",
            "Status: **Available** (0)\n",
            "\n-- String Data (Last data written is valid) --\n",
            "Author (Last Written Data): **A**\n",
            "============================================\n"]) :=
  ⟨session_is_echoed 4 garbage 101 1 false 499 '5' '0' "Intro to Systems".toList
      "J. Doe".toList [] (by decide) (by decide) (by decide) (by decide) (by decide)
      (by decide) (by decide) (by decide) (by decide) (by decide) (by decide) (by decide),
    session_is_echoed 3 garbage 7 0 true 70368744177663 '9' '9' [] "A".toList
      "unread".toList (by decide) (by decide) (by decide) (by decide) (by decide)
      (by decide) (by decide) (by decide) (by decide) (by decide) (by decide) (by decide)⟩

/-- C10: when the title line has 99 bytes or more before its newline, the title read stores its
first 99 bytes and the author read takes the rest of the same line: at the price prompt the
shared buffer holds the title's bytes from position 99 on (99 of them at most, none when the
title has exactly 99 bytes) and the line typed for the author is still unread; whenever
`input_book_details` returns, that is the text field of the record. -/
theorem long_title_spills_into_author {F : FloatLib} (fuel : Nat) (book : BookRecord F)
    (acc : Attempt) (title authorLine rest : List Char) (hacc : acc.wellFormed)
    (hf : acc.line.length < fuel) (hn : '\n' ∉ title) (h0 : NUL ∉ title)
    (hlen : MAX_STR_LEN - 1 ≤ title.length) :
    cstr (read_text book.string_data (title ++ '\n' :: (authorLine ++ '\n' :: rest))).1
        = title.take 99 ∧
      (input_texts fuel book
          (acc.line ++ '\n' :: (title ++ '\n' :: (authorLine ++ '\n' :: rest)))).map
        (fun q => (cstr q.1.string_data, q.2))
        = some ((title.drop 99).take 99,
            if title.length < 198 then authorLine ++ '\n' :: rest
            else title.drop 198 ++ '\n' :: (authorLine ++ '\n' :: rest)) ∧
      (title.length = 99 → (title.drop 99).take 99 = []) ∧
      ∀ r, input_book_details fuel book
          (acc.line ++ '\n' :: (title ++ '\n' :: (authorLine ++ '\n' :: rest))) = some r →
        cstr r.book.string_data = (title.drop 99).take 99 := by
  have hlen' : ¬ title.length < MAX_STR_LEN - 1 := by omega
  have hn2 : '\n' ∉ title.drop (MAX_STR_LEN - 1) := fun hm => hn (List.mem_of_mem_drop hm)
  have h02 : NUL ∉ title.drop (MAX_STR_LEN - 1) := fun hm => h0 (List.mem_of_mem_drop hm)
  obtain ⟨u, hul, hT⟩ := input_texts_accession (F := F) acc hacc
  have e := hT fuel book (title ++ '\n' :: (authorLine ++ '\n' :: rest))
  rw [if_pos (lt_of_le_of_lt hul hf),
    read_text_rest book.string_data title (authorLine ++ '\n' :: rest) hn, if_neg hlen'] at e
  have hc := read_text_line
    (read_text book.string_data (title ++ '\n' :: (authorLine ++ '\n' :: rest))).1
    (title.drop (MAX_STR_LEN - 1)) (authorLine ++ '\n' :: rest) hn2 h02
  have hr := read_text_rest
    (read_text book.string_data (title ++ '\n' :: (authorLine ++ '\n' :: rest))).1
    (title.drop (MAX_STR_LEN - 1)) (authorLine ++ '\n' :: rest) hn2
  have hsecond : (input_texts fuel book
      (acc.line ++ '\n' :: (title ++ '\n' :: (authorLine ++ '\n' :: rest)))).map
        (fun q => (cstr q.1.string_data, q.2))
      = some ((title.drop 99).take 99,
          if title.length < 198 then authorLine ++ '\n' :: rest
          else title.drop 198 ++ '\n' :: (authorLine ++ '\n' :: rest)) := by
    have h99 : MAX_STR_LEN - 1 = 99 := rfl
    rw [h99] at hc hr e
    rw [e]
    simp only [Option.map_some', hc, hr, List.length_drop, List.drop_drop]
    by_cases h198 : title.length < 198
    · rw [if_pos h198, if_pos (by omega)]
    · rw [if_neg h198, if_neg (by omega)]
  refine ⟨read_text_line _ title _ hn h0, hsecond, fun h99 => ?_, fun r hret => ?_⟩
  · rw [List.drop_of_length_le (by omega)]
    rfl
  · obtain ⟨b3, s3, h3, hsd, -⟩ := collected_fields fuel book _ r hret
    rw [h3] at hsecond
    simp only [Option.map_some', Option.some.injEq, Prod.mk.injEq] at hsecond
    rw [hsd, hsecond.1]

theorem long_title_spills_into_author_witness :
    (cstr (read_text garbage.string_data (longTitle ++ '\n' :: ("Author".toList ++ '\n' ::
        "12.00\n1\n".toList))).1 = longTitle.take 99 ∧
      (input_texts 10 garbage ((Attempt.int 7 []).line ++ '\n' ::
          (longTitle ++ '\n' :: ("Author".toList ++ '\n' :: "12.00\n1\n".toList)))).map
        (fun q => (cstr q.1.string_data, q.2))
        = some ((longTitle.drop 99).take 99,
            if longTitle.length < 198 then "Author".toList ++ '\n' :: "12.00\n1\n".toList
            else longTitle.drop 198 ++ '\n' :: ("Author".toList ++ '\n' :: "12.00\n1\n".toList)) ∧
      (longTitle.length = 99 → (longTitle.drop 99).take 99 = []) ∧
      (∀ r, input_book_details 10 garbage ((Attempt.int 7 []).line ++ '\n' ::
          (longTitle ++ '\n' :: ("Author".toList ++ '\n' :: "12.00\n1\n".toList))) = some r →
        cstr r.book.string_data = (longTitle.drop 99).take 99)) ∧
    (input_book_details 10 garbage ((Attempt.int 7 []).line ++ '\n' ::
        (longTitle ++ '\n' :: ("Author".toList ++ '\n' :: "12.00\n1\n".toList)))).map
      (fun r => (cstr r.book.string_data, r.book.status_flag, r.stdout))
      = some ("bcd".toList, 1, PROMPTS ++ [REPROMPT, REPROMPT]) :=
  ⟨long_title_spills_into_author 10 garbage (.int 7 []) longTitle "Author".toList
      "12.00\n1\n".toList (by decide) (by decide) (by decide) (by decide) (by decide),
    by rfl⟩

end SVEXP28
